/-
Verification development for the loading component of
pipelinewise-target-snowflake (file target_snowflake/db_sync.py).

Python strings are modelled as lists of characters (type LC).  Python
functions that can raise are modelled with Option/Except results.  Each
definition carries a comment naming the source function it embeds.
-/
import Mathlib

namespace TargetSnowflake

/-- A Python string, modelled as its list of characters. -/
abbrev LC := List Char

/-- Model of Python str.upper on ASCII data (db_sync only upcases ASCII
identifiers and type names). -/
def pyUpper (s : LC) : LC := s.map Char.toUpper

/-- Model of Python str.lower on ASCII data. -/
def pyLower (s : LC) : LC := s.map Char.toLower

/-- Model of Python sep.join(parts). -/
def pyJoin (sep : LC) (parts : List LC) : LC := List.intercalate sep parts

/-- Scanner for Python str.replace with a non-empty needle: replaces
non-overlapping occurrences left to right. -/
def pyReplaceAux (old new : LC) (hold : 0 < old.length) : LC → LC
  | [] => []
  | c :: rest =>
    if old.isPrefixOf (c :: rest) then
      new ++ pyReplaceAux old new hold ((c :: rest).drop old.length)
    else
      c :: pyReplaceAux old new hold rest
termination_by s => s.length
decreasing_by
  · simp only [List.length_drop, List.length_cons]
    omega
  · simp only [List.length_cons]
    omega

/-- Model of Python s.replace(old, new).  An empty needle inserts new
between every character, as in Python. -/
def pyReplace (s old new : LC) : LC :=
  if h : old.length = 0 then new ++ s.flatMap (fun c => c :: new)
  else pyReplaceAux old new (by omega) s

/-- Model of Python `needle in haystack` for strings (substring test):
the needle is a prefix of some suffix of the haystack. -/
def pyStrIn (needle haystack : LC) : Bool :=
  match haystack with
  | [] => needle.isEmpty
  | _ :: rest => needle.isPrefixOf haystack || pyStrIn needle rest

/-- Scanner for Python str.split(sep) with a non-empty separator: cuts at
every non-overlapping occurrence, keeping empty segments. -/
def pySplitAux (sep : LC) (hsep : 0 < sep.length) : LC → List LC
  | [] => [[]]
  | c :: rest =>
    if sep.isPrefixOf (c :: rest) then
      [] :: pySplitAux sep hsep ((c :: rest).drop sep.length)
    else
      match pySplitAux sep hsep rest with
      | [] => [[c]]
      | seg :: segs => (c :: seg) :: segs
termination_by s => s.length
decreasing_by
  · simp only [List.length_drop, List.length_cons]
    omega
  · simp only [List.length_cons]
    omega

/-- Model of Python stream_name.split(separator); Python raises ValueError
on an empty separator, hence the Option result. -/
def pySplit (s sep : LC) : Option (List LC) :=
  if h : sep.length = 0 then none else some (pySplitAux sep (by omega) s)

section IncrementValue

/-- State of the _increment_value generator in DbSync.load_via_snowpipe
after n yields: the pair (previous, current).  The update in the source is
current, previous = current + previous, current. -/
def incrementState : Nat → Nat × Nat
  | 0 => (0, 1)
  | n + 1 =>
    let pc := incrementState (n)
    (pc.2, pc.2 + pc.1)

/-- The n-th value yielded by _increment_value(exponentially): in
exponential mode 2 ** (current + previous), otherwise
current + previous + 30 (db_sync.py lines 593-600). -/
def incrementValue (exponentially : Bool) (n : Nat) : Nat :=
  let pc := incrementState n
  if exponentially then 2 ^ (pc.2 + pc.1) else pc.2 + pc.1 + 30

theorem incrementState_eq_fib (n : Nat) :
    incrementState n = (Nat.fib n, Nat.fib (n + 1)) := by
  induction n with
  | zero => rfl
  | succ k ih =>
    simp only [incrementState, ih, Prod.mk.injEq, true_and]
    rw [Nat.fib_add_two]
    omega

end IncrementValue

section SnowpipeSubmit

/-- Observable outcome of the snowpipe submission loop in
DbSync.load_via_snowpipe (lines 653-670), counting ingest_files attempts.
fatal models the abort on exhausted retries (the source logs and calls
sys.exit(1); the attempt count is recorded).  stillLooping is returned
when the supplied outcome window ends while the loop would keep running. -/
inductive SubmitOutcome where
  | success (attempts : Nat)
  | fatal (attempts : Nat)
  | stillLooping (attempts : Nat)
  deriving DecidableEq, Repr

/-- The retry loop of load_via_snowpipe: each list element tells whether
the corresponding ingest_files call succeeds (true) or raises HTTPError
(false).  On failure the source decrements retries and aborts when the
counter hits exactly zero (`if not retries`); the counter is an int and
can pass below zero without ever aborting, hence the Int type. -/
def ingestLoop (outcomes : List Bool) (retries : Int) (attempts : Nat) :
    SubmitOutcome :=
  match outcomes with
  | [] => .stillLooping attempts
  | ok :: rest =>
    if ok then .success (attempts + 1)
    else
      if retries - 1 = 0 then .fatal (attempts + 1)
      else ingestLoop rest (retries - 1) (attempts + 1)

/-- Entry point of the submission loop: retries starts from the
max_retry configuration value (default 5). -/
def loadViaSnowpipeSubmit (outcomes : List Bool) (maxRetry : Nat) :
    SubmitOutcome :=
  ingestLoop outcomes (maxRetry : Int) 0

theorem ingestLoop_cons_true (rest : List Bool) (r : Int) (a : Nat) :
    ingestLoop (true :: rest) r a = .success (a + 1) := by
  simp [ingestLoop]

theorem ingestLoop_cons_false (rest : List Bool) (r : Int) (a : Nat) :
    ingestLoop (false :: rest) r a =
      if r - 1 = 0 then .fatal (a + 1) else ingestLoop rest (r - 1) (a + 1) := by
  simp [ingestLoop]

theorem ingestLoop_all_fail (m : Nat) (hm : 1 ≤ m) :
    ∀ (n : Nat) (a : Nat), m ≤ n →
      ingestLoop (List.replicate n false) (m : Int) a = .fatal (a + m) := by
  induction m with
  | zero => omega
  | succ k ih =>
    intro n a hn
    match n, hn with
    | n + 1, _ =>
      rw [List.replicate_succ, ingestLoop_cons_false]
      by_cases hk : k = 0
      · subst hk
        rw [if_pos (by norm_num)]
      · rw [if_neg (by push_cast; omega)]
        have harg : ((k + 1 : Nat) : Int) - 1 = (k : Int) := by push_cast; ring
        rw [harg, ih (by omega) n (a + 1) (by omega)]
        congr 1
        omega

theorem ingestLoop_first_success (k : Nat) :
    ∀ (m : Nat) (a : Nat) (rest : List Bool), k < m →
      ingestLoop (List.replicate k false ++ true :: rest) (m : Int) a =
        .success (a + k + 1) := by
  induction k with
  | zero =>
    intro m a rest _
    rw [List.replicate_zero, List.nil_append, ingestLoop_cons_true]
  | succ j ih =>
    intro m a rest hm
    match m, hm with
    | m + 1, _ =>
      rw [List.replicate_succ, List.cons_append, ingestLoop_cons_false]
      rw [if_neg (by push_cast; omega)]
      have harg : ((m + 1 : Nat) : Int) - 1 = (m : Int) := by push_cast; ring
      rw [harg, ih m (a + 1) rest (by omega)]
      congr 1
      omega

end SnowpipeSubmit

section ValidateConfig

/-- A tap target configuration: an association from key names to string
values; a missing key reads as the empty string, matching Python
config.get(k, None) falsiness for both None and the empty string.
(The schema_mapping key holds an object in the source; its truthiness is
modelled the same way.) -/
abbrev Config := List (LC × LC)

/-- Model of config.get(k, None) truthiness. -/
def cfgVal (config : Config) (k : LC) : LC :=
  match config.find? (fun p => p.1 = k) with
  | some p => p.2
  | none => []

/-- Whether config.get(k, None) is truthy. -/
def cfgTruthy (config : Config) (k : LC) : Bool := cfgVal config k ≠ []

/-- Required keys when both s3_bucket and stage are configured
(db_sync.py lines 36-45). -/
def s3RequiredConfigKeys : List LC :=
  ["account".toList, "dbname".toList, "user".toList, "password".toList,
   "warehouse".toList, "s3_bucket".toList, "stage".toList,
   "file_format".toList]

/-- Required keys when neither s3_bucket nor stage is configured
(db_sync.py lines 47-54). -/
def snowflakeRequiredConfigKeys : List LC :=
  ["account".toList, "dbname".toList, "user".toList, "password".toList,
   "warehouse".toList, "file_format".toList]

/-- The mutual-exclusivity error message appended by validate_config when
exactly one of s3_bucket and stage is set (db_sync.py lines 64-67). -/
def stagingConflictMsg : LC :=
  ("Only one of 's3_bucket' or 'stage' keys defined in config. " ++
   "Use both of them if you want to use an external stage when loading data into snowflake " ++
   "or don't use any of them if you want ot use table stages.").toList

/-- The missing-required-key error message (db_sync.py line 72). -/
def missingKeyMsg (k : LC) : LC :=
  "Required key is missing from config: [".toList ++ k ++ "]".toList

/-- The missing-target-schema error message (db_sync.py line 78). -/
def missingSchemaMsg : LC :=
  ("Neither 'default_target_schema' (string) nor 'schema_mapping' (object) " ++
   "keys set in config.").toList

/-- Model of validate_config (db_sync.py lines 34-83): returns the list of
error messages in the order the source appends them. -/
def validate_config (config : Config) : List LC :=
  let s3 := cfgTruthy config "s3_bucket".toList
  let stage := cfgTruthy config "stage".toList
  let requiredKeys : List LC :=
    if s3 && stage then s3RequiredConfigKeys
    else if !s3 && !stage then snowflakeRequiredConfigKeys
    else []
  let stagingErrors : List LC :=
    if s3 && stage then [] else if !s3 && !stage then [] else [stagingConflictMsg]
  let keyErrors : List LC :=
    (requiredKeys.filter (fun k => !cfgTruthy config k)).map missingKeyMsg
  let schemaErrors : List LC :=
    if !cfgTruthy config "default_target_schema".toList &&
       !cfgTruthy config "schema_mapping".toList then [missingSchemaMsg] else []
  stagingErrors ++ keyErrors ++ schemaErrors

end ValidateConfig

section StreamName

/-- Result of stream_name_to_dict: optional catalog and schema qualifiers
plus the table name (db_sync.py lines 210-229). -/
structure StreamDict where
  catalogName : Option LC
  schemaName : Option LC
  tableName : LC
  deriving DecidableEq, Repr

/-- Model of stream_name_to_dict(stream_name, separator); none models the
ValueError Python raises when splitting on an empty separator. -/
def stream_name_to_dict (streamName separator : LC) : Option StreamDict :=
  match pySplit streamName separator with
  | none => none
  | some s =>
    let base : StreamDict := ⟨none, none, streamName⟩
    let afterTwo : StreamDict :=
      if s.length = 2 then
        ⟨none, s.headD [], (s.drop 1).headD []⟩
      else base
    some <|
      if 2 < s.length then
        ⟨(s.headD []), ((s.drop 1).headD []), pyJoin "_".toList (s.drop 2)⟩
      else afterTwo

end StreamName

section QueryTag

/-- Value substituted for the schema token: `schema or 'unknown-schema'`
in create_query_tag (db_sync.py line 255). -/
def schemaTokenValue (schema : Option LC) : LC :=
  match schema with
  | some s => if s = [] then "unknown-schema".toList else s
  | none => "unknown-schema".toList

/-- Value substituted for the table token (db_sync.py line 256). -/
def tableTokenValue (table : Option LC) : LC :=
  match table with
  | some t => if t = [] then "unknown-table".toList else t
  | none => "unknown-table".toList

/-- Model of create_query_tag (db_sync.py lines 232-261): a falsy pattern
yields None, otherwise the schema token and then the table token are
replaced sequentially, each replacement guarded by a containment check on
the current string. -/
def create_query_tag (queryTagPattern : Option LC)
    (schema table : Option LC) : Option LC :=
  match queryTagPattern with
  | none => none
  | some p =>
    if p = [] then none
    else
      let afterSchema :=
        if pyStrIn "{schema}".toList p then
          pyReplace p "{schema}".toList (schemaTokenValue schema)
        else p
      let afterTable :=
        if pyStrIn "{table}".toList afterSchema then
          pyReplace afterSchema "{table}".toList (tableTokenValue table)
        else afterSchema
      some afterTable

/-- Modelled from the claim wording for comparison: simultaneous, single
pass substitution of the schema and table tokens over the original
pattern, leaving all other text unchanged. -/
def createQueryTagSimultaneous (p sv tv : LC) : LC :=
  match p with
  | [] => []
  | c :: rest =>
    if ("{schema}".toList).isPrefixOf (c :: rest) then
      sv ++ createQueryTagSimultaneous ((c :: rest).drop 8) sv tv
    else if ("{table}".toList).isPrefixOf (c :: rest) then
      tv ++ createQueryTagSimultaneous ((c :: rest).drop 7) sv tv
    else
      c :: createQueryTagSimultaneous rest sv tv
termination_by p.length
decreasing_by
  · simp only [List.length_drop, List.length_cons]; omega
  · simp only [List.length_drop, List.length_cons]; omega
  · simp only [List.length_cons]; omega

/-- Modelled from the claim wording: None on a falsy pattern, otherwise
simultaneous token substitution. -/
def create_query_tag_claim (queryTagPattern : Option LC)
    (schema table : Option LC) : Option LC :=
  match queryTagPattern with
  | none => none
  | some p =>
    if p = [] then none
    else some (createQueryTagSimultaneous p (schemaTokenValue schema)
      (tableTokenValue table))

end QueryTag

section PyValues

/-- A Python/JSON value as handled by db_sync: strings, ints, booleans,
None, lists, and dicts with string keys.  Floats do not occur in any of
the schema-handling paths modelled here. -/
inductive PyVal where
  | str (s : LC)
  | int (n : Int)
  | bool (b : Bool)
  | none
  | list (xs : List PyVal)
  | dict (entries : List (LC × PyVal))

mutual

/-- Structural equality test for PyVal. -/
def pyValBeq : PyVal → PyVal → Bool
  | .str a, .str b => a == b
  | .int a, .int b => a == b
  | .bool a, .bool b => a == b
  | .none, .none => true
  | .list xs, .list ys => pyValListBeq xs ys
  | .dict xs, .dict ys => pyValEntriesBeq xs ys
  | _, _ => false

/-- Structural equality test for lists of PyVal. -/
def pyValListBeq : List PyVal → List PyVal → Bool
  | [], [] => true
  | x :: xs, y :: ys => pyValBeq x y && pyValListBeq xs ys
  | _, _ => false

/-- Structural equality test for dict entry lists. -/
def pyValEntriesBeq : List (LC × PyVal) → List (LC × PyVal) → Bool
  | [], [] => true
  | (k1, v1) :: xs, (k2, v2) :: ys =>
    k1 == k2 && pyValBeq v1 v2 && pyValEntriesBeq xs ys
  | _, _ => false

end

mutual

theorem pyValBeq_iff : ∀ (a b : PyVal), pyValBeq a b = true ↔ a = b
  | .str a, b => by cases b <;> simp [pyValBeq]
  | .int a, b => by cases b <;> simp [pyValBeq]
  | .bool a, b => by cases b <;> simp [pyValBeq]
  | .none, b => by cases b <;> simp [pyValBeq]
  | .list xs, b => by
    cases b <;> simp only [pyValBeq, PyVal.list.injEq, Bool.false_eq_true,
      iff_false, reduceCtorEq, not_false_eq_true]
    rw [pyValListBeq_iff]
  | .dict xs, b => by
    cases b <;> simp only [pyValBeq, PyVal.dict.injEq, Bool.false_eq_true,
      iff_false, reduceCtorEq, not_false_eq_true]
    rw [pyValEntriesBeq_iff]

theorem pyValListBeq_iff : ∀ (xs ys : List PyVal),
    pyValListBeq xs ys = true ↔ xs = ys
  | [], ys => by cases ys <;> simp [pyValListBeq]
  | x :: xs, [] => by simp [pyValListBeq]
  | x :: xs, y :: ys => by
    simp only [pyValListBeq, Bool.and_eq_true, List.cons.injEq]
    rw [pyValBeq_iff, pyValListBeq_iff]

theorem pyValEntriesBeq_iff : ∀ (xs ys : List (LC × PyVal)),
    pyValEntriesBeq xs ys = true ↔ xs = ys
  | [], ys => by cases ys <;> simp [pyValEntriesBeq]
  | x :: xs, [] => by
    match x with
    | (k, v) => simp [pyValEntriesBeq]
  | (k1, v1) :: xs, (k2, v2) :: ys => by
    simp only [pyValEntriesBeq, Bool.and_eq_true, List.cons.injEq, beq_iff_eq,
      Prod.mk.injEq]
    rw [pyValBeq_iff, pyValEntriesBeq_iff]

end

instance : DecidableEq PyVal :=
  fun a b => decidable_of_iff (pyValBeq a b = true) (pyValBeq_iff a b)

/-- Dict lookup d[k] for an association list (Python dicts have unique
keys; the first match is the binding). -/
def pyGet {β : Type} (es : List (LC × β)) (k : LC) : Option β :=
  (es.find? (fun p => p.1 = k)).map (fun p => p.2)

/-- Whether a dict has the key k. -/
def pyHasKey {β : Type} (es : List (LC × β)) (k : LC) : Bool :=
  es.any (fun p => p.1 = k)

/-- Model of Python `needle in container` for a string needle: substring
test on strings, element membership on lists, key membership on dicts;
none models the TypeError raised on other container types. -/
def pyIn (needle : LC) (container : PyVal) : Option Bool :=
  match container with
  | .str s => some (pyStrIn needle s)
  | .list xs => some (xs.any (fun x => decide (x = PyVal.str needle)))
  | .dict es => some (pyHasKey es needle)
  | _ => Option.none

/-- Model of Python container[0]: first element of a list, first
character of a string; none models IndexError/TypeError/KeyError on the
other shapes. -/
def pyIndexZero (v : PyVal) : Option PyVal :=
  match v with
  | .list (x :: _) => some x
  | .str (c :: _) => some (.str [c])
  | _ => Option.none

/-- Model of dict item assignment d[k] = v for a key already present:
the binding keeps its position and gets the new value. -/
def pySetKey (es : List (LC × PyVal)) (k : LC) (v : PyVal) :
    List (LC × PyVal) :=
  es.map (fun p => if p.1 = k then (k, v) else p)

/-- Model of Python dict(items): first-occurrence position, last
occurrence value for each key. -/
def pyDict {β : Type} : List (LC × β) → List (LC × β)
  | [] => []
  | (k, v) :: rest =>
    let lastV := (((k, v) :: rest).reverse.find? (fun p => p.1 = k)).getD (k, v)
    (k, lastV.2) :: pyDict (rest.filter (fun p => ¬(p.1 = k)))
termination_by l => l.length
decreasing_by
  simp only [List.length_cons]
  have := List.length_filter_le (fun p => decide ¬(p.1 = k)) rest
  omega

end PyValues

section JsonDumps

/-- One hexadecimal digit, lowercase, as emitted by json.dumps. -/
def hexDigit (n : Nat) : Char :=
  if n < 10 then Char.ofNat ('0'.toNat + n) else Char.ofNat ('a'.toNat + n - 10)

/-- Four-digit lowercase hex rendering used in \u escapes. -/
def hex4 (n : Nat) : LC :=
  [hexDigit (n / 4096 % 16), hexDigit (n / 256 % 16),
   hexDigit (n / 16 % 16), hexDigit (n % 16)]

/-- Models the escaping json.dumps applies to one character with the
default ensure_ascii=True: named escapes for the usual control
characters, backslash-u escapes (with surrogate pairs) for other
non-printable or non-ASCII characters. -/
def jsonEscapeChar (c : Char) : LC :=
  if c = '"' then ['\\', '"']
  else if c = '\\' then ['\\', '\\']
  else if c = '\n' then ['\\', 'n']
  else if c = '\t' then ['\\', 't']
  else if c = '\r' then ['\\', 'r']
  else if c.toNat = 8 then ['\\', 'b']
  else if c.toNat = 12 then ['\\', 'f']
  else if c.toNat < 32 || 126 < c.toNat then
    if c.toNat < 65536 then '\\' :: 'u' :: hex4 c.toNat
    else
      ('\\' :: 'u' :: hex4 (55296 + (c.toNat - 65536) / 1024)) ++
      ('\\' :: 'u' :: hex4 (56320 + (c.toNat - 65536) % 1024))
  else [c]

/-- A JSON string literal as produced by json.dumps. -/
def jsonQuote (s : LC) : LC :=
  '"' :: s.flatMap jsonEscapeChar ++ ['"']

mutual

/-- Models json.dumps with its default settings (separators ", " and
": ", ensure_ascii=True, insertion order preserved for dicts). -/
def jsonDumps : PyVal → LC
  | .str s => jsonQuote s
  | .int n => (toString n).toList
  | .bool b => if b then "true".toList else "false".toList
  | .none => "null".toList
  | .list xs => '[' :: pyJoin ", ".toList (jsonDumpsList xs) ++ [']']
  | .dict es => '\x7b' :: pyJoin ", ".toList (jsonDumpsEntries es) ++ ['\x7d']

/-- Serializations of the elements of a JSON array. -/
def jsonDumpsList : List PyVal → List LC
  | [] => []
  | x :: xs => jsonDumps x :: jsonDumpsList xs

/-- Serializations of the key: value items of a JSON object. -/
def jsonDumpsEntries : List (LC × PyVal) → List LC
  | [] => []
  | (k, v) :: es => (jsonQuote k ++ ": ".toList ++ jsonDumps v) :: jsonDumpsEntries es

end

end JsonDumps

section TypeMapper

/-- Model of column_type (db_sync.py lines 86-112): maps a JSON-schema
property dict to a Snowflake column type via an ordered decision chain.
none models the Python errors (KeyError on a missing type key, TypeError
from the membership tests on unsupported shapes). -/
def column_type (schemaProperty : PyVal) : Option LC :=
  match schemaProperty with
  | .dict es =>
    match pyGet es "type".toList with
    | Option.none => Option.none
    | some pt =>
      let fmt : Option PyVal := pyGet es "format".toList
      do
        let bObj ← pyIn "object".toList pt
        let bArr ← if bObj then pure true else pyIn "array".toList pt
        if bObj || bArr then pure "variant".toList
        else if fmt = some (.str "date-time".toList) then pure "timestamp_ntz".toList
        else if fmt = some (.str "time".toList) then pure "time".toList
        else if fmt = some (.str "binary".toList) then pure "binary".toList
        else do
          let bNum ← pyIn "number".toList pt
          if bNum then pure "float".toList
          else do
            let bInt ← pyIn "integer".toList pt
            let bStr ← if bInt then pyIn "string".toList pt else pure false
            if bInt && bStr then pure "text".toList
            else if bInt then pure "number".toList
            else do
              let bBool ← pyIn "boolean".toList pt
              if bBool then pure "boolean".toList else pure "text".toList
  | _ => Option.none

/-- Model of column_trans (db_sync.py lines 115-123): parse_json for
object/array types, to_binary for format binary, otherwise the empty
transform. -/
def column_trans (schemaProperty : PyVal) : Option LC :=
  match schemaProperty with
  | .dict es =>
    match pyGet es "type".toList with
    | Option.none => Option.none
    | some pt => do
      let bObj ← pyIn "object".toList pt
      let bArr ← if bObj then pure true else pyIn "array".toList pt
      if bObj || bArr then pure "parse_json".toList
      else if pyGet es "format".toList = some (.str "binary".toList) then
        pure "to_binary".toList
      else pure []
  | _ => Option.none

/-- Model of safe_column_name (db_sync.py lines 126-127): wrap in double
quotes and upper-case. -/
def safe_column_name (name : LC) : LC :=
  pyUpper ('"' :: name ++ ['"'])

/-- Entry list of a JSON-schema property descriptor with a list-valued
type field and an optional format field, as produced by singer taps. -/
def mkPropertyEntries (ts : List LC) (fmt : Option LC) :
    List (LC × PyVal) :=
  ("type".toList, PyVal.list (ts.map PyVal.str)) ::
    (match fmt with
     | some f => [("format".toList, PyVal.str f)]
     | Option.none => [])

/-- A JSON-schema property descriptor with a list-valued type field and
an optional format field; used to state the decision-table claims. -/
def mkProperty (ts : List LC) (fmt : Option LC) : PyVal :=
  .dict (mkPropertyEntries ts fmt)

/-- Modelled from the claim wording: the column-type decision table with
first-match semantics over a list-valued type and optional format. -/
def columnTypeTable (ts : List LC) (fmt : Option LC) : LC :=
  if "object".toList ∈ ts ∨ "array".toList ∈ ts then "variant".toList
  else if fmt = some "date-time".toList then "timestamp_ntz".toList
  else if fmt = some "time".toList then "time".toList
  else if fmt = some "binary".toList then "binary".toList
  else if "number".toList ∈ ts then "float".toList
  else if "integer".toList ∈ ts ∧ "string".toList ∈ ts then "text".toList
  else if "integer".toList ∈ ts then "number".toList
  else if "boolean".toList ∈ ts then "boolean".toList
  else "text".toList

/-- The transform decision table as the code implements it: parse for
structured types first, then binary decode, then no transform. -/
def columnTransTable (ts : List LC) (fmt : Option LC) : LC :=
  if "object".toList ∈ ts ∨ "array".toList ∈ ts then "parse_json".toList
  else if fmt = some "binary".toList then "to_binary".toList
  else []

end TypeMapper

section FlattenKey

/-- Models inflection.camelize applied after the first character:
an underscore followed by a character is replaced by that character
upper-cased; a trailing lone underscore is kept. -/
def camelizeRest : LC → LC
  | [] => []
  | '_' :: c :: rest => c.toUpper :: camelizeRest rest
  | c :: rest => c :: camelizeRest rest

/-- Models inflection.camelize(string) with its default
uppercase_first_letter=True: the first character is upper-cased and each
underscore-letter pair becomes the upper-cased letter. -/
def camelize : LC → LC
  | [] => []
  | c :: rest => c.toUpper :: camelizeRest rest

/-- One compression step of flatten_key (db_sync.py lines 139-141):
strip lowercase letters from the camelized segment; if that leaves at
most one character, take the first three characters of the original
segment; lower-case the result. -/
def compressSegment (seg : LC) : LC :=
  let reduced := (camelize seg).filter (fun c => !c.isLower)
  pyLower (if 1 < reduced.length then reduced else seg.take 3)

/-- The while loop of flatten_key (db_sync.py line 138): compress
segments left to right while the joined name is at least 255 characters
long and segments remain. -/
def reduceKeyLoop (sep : LC) (keys : List LC) (i : Nat) : List LC :=
  if h : 255 ≤ (pyJoin sep keys).length ∧ i < keys.length then
    reduceKeyLoop sep (keys.set i (compressSegment (keys.getD i []))) (i + 1)
  else keys
termination_by keys.length - i
decreasing_by
  simp only [List.length_set]
  omega

/-- Model of flatten_key (db_sync.py lines 134-144). -/
def flatten_key (k : LC) (parentKey : List LC) (sep : LC) : LC :=
  pyJoin sep (reduceKeyLoop sep (parentKey ++ [k]) 0)

end FlattenKey

section KeyOrder

/-- Lexicographic order on Python strings by code point, as used by
sorted() with the column-name key function. -/
def lcLE : LC → LC → Bool
  | [], _ => true
  | _ :: _, [] => false
  | a :: as, b :: bs =>
    if a < b then true else if b < a then false else lcLE as bs

theorem lcLE_total : ∀ (a b : LC), lcLE a b = true ∨ lcLE b a = true
  | [], _ => by left; rfl
  | _ :: _, [] => by right; rfl
  | a :: as, b :: bs => by
    simp only [lcLE]
    rcases lt_trichotomy a b with h | h | h
    · left; rw [if_pos h]
    · subst h
      simp only [lt_irrefl, if_false]
      exact lcLE_total as bs
    · right; rw [if_pos h]

theorem lcLE_trans : ∀ (a b c : LC),
    lcLE a b = true → lcLE b c = true → lcLE a c = true
  | [], _, _ => by intro _ _; rfl
  | a :: as, [], c => by intro h; exact absurd h (by simp [lcLE])
  | a :: as, b :: bs, [] => by intro _ h; exact absurd h (by simp [lcLE])
  | a :: as, b :: bs, c :: cs => by
    simp only [lcLE]
    intro h1 h2
    rcases lt_trichotomy a b with hab | hab | hab
    · rcases lt_trichotomy b c with hbc | hbc | hbc
      · rw [if_pos (hab.trans hbc)]
      · subst hbc; rw [if_pos hab]
      · rw [if_pos hbc, if_neg (lt_asymm hbc)] at h2
        exact absurd h2 (by simp)
    · subst hab
      rcases lt_trichotomy a c with hac | hac | hac
      · rw [if_pos hac]
      · subst hac
        simp only [lt_irrefl, if_false] at h1 h2 ⊢
        exact lcLE_trans as bs cs h1 h2
      · rw [if_pos hac, if_neg (lt_asymm hac)] at h2
        exact absurd h2 (by simp)
    · rw [if_pos hab, if_neg (lt_asymm hab)] at h1
      exact absurd h1 (by simp)

theorem lcLE_antisymm : ∀ (a b : LC),
    lcLE a b = true → lcLE b a = true → a = b
  | [], [] => by intro _ _; rfl
  | [], _ :: _ => by intro _ h; exact absurd h (by simp [lcLE])
  | _ :: _, [] => by intro h _; exact absurd h (by simp [lcLE])
  | a :: as, b :: bs => by
    simp only [lcLE]
    intro h1 h2
    rcases lt_trichotomy a b with hab | hab | hab
    · rw [if_pos hab, if_neg (lt_asymm hab)] at h2
      exact absurd h2 (by simp)
    · subst hab
      simp only [lt_irrefl, if_false] at h1 h2
      rw [lcLE_antisymm as bs h1 h2]
    · rw [if_pos hab, if_neg (lt_asymm hab)] at h1
      exact absurd h1 (by simp)

/-- The comparison key used when flatten_schema sorts collected items:
compare entries by column name. -/
def keyLE (p q : LC × PyVal) : Prop := lcLE p.1 q.1 = true

instance : DecidableRel keyLE := fun p q => by
  unfold keyLE; infer_instance

instance : IsTotal (LC × PyVal) keyLE :=
  ⟨fun p q => lcLE_total p.1 q.1⟩

instance : IsTrans (LC × PyVal) keyLE :=
  ⟨fun p q r => lcLE_trans p.1 q.1 r.1⟩

end KeyOrder

section FlattenSchema

/-- Outcomes of flatten_schema: the schema-conflict ValueError carrying
the colliding column name (db_sync.py line 176), or any other
Python-level error (KeyError/TypeError/AttributeError on malformed
schema nodes). -/
inductive FlattenErr where
  | dupCol (k : LC)
  | pyErr
  deriving DecidableEq

/-- The duplicate detection flatten_schema performs with groupby over
the sorted items (db_sync.py lines 172-176): the first adjacent pair of
equal column names, if any. -/
def findDup : List (LC × PyVal) → Option LC
  | (a, _) :: (b, w) :: rest =>
    if a = b then some a else findDup ((b, w) :: rest)
  | _ => Option.none

/-- The sorting and duplicate-detection tail of flatten_schema
(db_sync.py lines 172-178): sort the items by column name, raise the
schema-conflict ValueError on the first duplicated name, otherwise
return dict(sorted_items). -/
def sortAndCheckItems (items : List (LC × PyVal)) :
    Except FlattenErr (List (LC × PyVal)) :=
  match findDup (List.insertionSort keyLE items) with
  | some k => .error (.dupCol k)
  | Option.none => .ok (pyDict (List.insertionSort keyLE items))

mutual

/-- Model of flatten_schema (db_sync.py lines 147-178): collect items,
sort them by column name, fail with the schema-conflict error on a
duplicated name, otherwise return dict(sorted_items). -/
def flatten_schema (d : PyVal) (parentKey : List LC) (sep : LC)
    (level maxLevel : Nat) : Except FlattenErr (List (LC × PyVal)) :=
  (flattenCollect d parentKey sep level maxLevel).bind sortAndCheckItems
termination_by (maxLevel - level, 2, 0)

/-- The collection phase of flatten_schema: the early return when the
node has no properties key, the extraction of the properties dict, and
the per-property loop. -/
def flattenCollect (d : PyVal) (parentKey : List LC) (sep : LC)
    (level maxLevel : Nat) : Except FlattenErr (List (LC × PyVal)) :=
  match pyIn "properties".toList d with
  | Option.none => .error .pyErr
  | some false => .ok []
  | some true =>
    match d with
    | .dict es =>
      match pyGet es "properties".toList with
      | some (.dict props) => fsItems props parentKey sep level maxLevel
      | some _ => .error .pyErr
      | Option.none => .error .pyErr
    | _ => .error .pyErr
termination_by (maxLevel - level, 1, 0)

/-- The per-property loop of flatten_schema (db_sync.py lines 153-170):
descend into object properties while level < max_level, make leaves of
everything else, and normalize union/anyOf-style properties that have no
type key by forcing nullability onto the first alternative. -/
def fsItems (props : List (LC × PyVal)) (parentKey : List LC) (sep : LC)
    (level maxLevel : Nat) : Except FlattenErr (List (LC × PyVal)) :=
  match props with
  | [] => .ok []
  | (k, v) :: rest =>
    let newKey := flatten_key k parentKey sep
    match v with
    | .dict ve =>
      if pyHasKey ve "type".toList then
        match pyGet ve "type".toList with
        | Option.none => .error .pyErr
        | some vt =>
          match pyIn "object".toList vt with
          | Option.none => .error .pyErr
          | some bObj =>
            if _h : bObj = true ∧ pyHasKey ve "properties".toList = true ∧
                level < maxLevel then
              match flatten_schema v (parentKey ++ [k]) sep (level + 1)
                  maxLevel with
              | .error e => .error e
              | .ok sub =>
                match fsItems rest parentKey sep level maxLevel with
                | .error e => .error e
                | .ok restItems => .ok (sub ++ restItems)
            else
              match fsItems rest parentKey sep level maxLevel with
              | .error e => .error e
              | .ok restItems => .ok ((newKey, v) :: restItems)
      else
        if ve.isEmpty then fsItems rest parentKey sep level maxLevel
        else
          match ve.head? with
          | Option.none => .error .pyErr
          | some fstEntry =>
            match pyIndexZero fstEntry.2 with
            | Option.none => .error .pyErr
            | some alt =>
              match alt with
              | .dict ae =>
                match pyGet ae "type".toList with
                | Option.none => .error .pyErr
                | some t =>
                  if t = PyVal.str "string".toList then
                    match fsItems rest parentKey sep level maxLevel with
                    | .error e => .error e
                    | .ok restItems =>
                      .ok ((newKey, PyVal.dict (pySetKey ae "type".toList
                        (.list [.str "null".toList, .str "string".toList]))) ::
                        restItems)
                  else if t = PyVal.str "array".toList then
                    match fsItems rest parentKey sep level maxLevel with
                    | .error e => .error e
                    | .ok restItems =>
                      .ok ((newKey, PyVal.dict (pySetKey ae "type".toList
                        (.list [.str "null".toList, .str "array".toList]))) ::
                        restItems)
                  else if t = PyVal.str "object".toList then
                    match fsItems rest parentKey sep level maxLevel with
                    | .error e => .error e
                    | .ok restItems =>
                      .ok ((newKey, PyVal.dict (pySetKey ae "type".toList
                        (.list [.str "null".toList, .str "object".toList]))) ::
                        restItems)
                  else fsItems rest parentKey sep level maxLevel
              | _ => .error .pyErr
    | _ => .error .pyErr
termination_by (maxLevel - level, 0, props.length)

end

end FlattenSchema

section FlattenRecord

/-- Model of the set(...) == {'null', 'object', 'array'} test in
_should_json_dump_value (db_sync.py lines 185-186): set equality for a
list-valued type (none when the list holds unhashable values, where
set() raises), character-set comparison for strings (never equal to a
set of multi-character strings), key-set comparison for dicts, and a
TypeError (none) for non-iterable values. -/
def pySetEqTriple (t : PyVal) : Option Bool :=
  let names : List PyVal :=
    [.str "null".toList, .str "object".toList, .str "array".toList]
  match t with
  | .list xs =>
    if xs.any (fun x => match x with
        | .list _ => true | .dict _ => true | _ => false) then Option.none
    else some ((xs.all (fun x => decide (x ∈ names))) &&
      (names.all (fun x => decide (x ∈ xs))))
  | .str _ => some false
  | .dict es =>
    some (((es.map (fun p => PyVal.str p.1)).all (fun x => decide (x ∈ names))) &&
      (names.all (fun x => decide (x ∈ es.map (fun p => PyVal.str p.1)))))
  | _ => Option.none

/-- The isinstance(value, (dict, list)) test of _should_json_dump_value:
whether a value is natively a nested structure. -/
def isNested (v : PyVal) : Bool :=
  match v with
  | .dict _ => true
  | .list _ => true
  | _ => false

/-- The set(...) == {'null', 'object', 'array'} lookup chain of
_should_json_dump_value on a non-dict entry: Python indexes the entry
with a string key, a TypeError. -/
def entryTypeTriple (entry : PyVal) : Option Bool :=
  match entry with
  | .dict ee => (pyGet ee "type".toList).elim (some false) pySetEqTriple
  | _ => Option.none

/-- Model of _should_json_dump_value (db_sync.py lines 181-189): true for
dict or list values, true when the flattened schema declares the column
with a type whose set is exactly the null/object/array union, false
otherwise; none models the Python errors of the membership and set
tests on malformed schema entries. -/
def shouldJsonDumpValue (key : LC) (value : PyVal)
    (fsOpt : Option (List (LC × PyVal))) : Option Bool :=
  if isNested value then some true
  else
    fsOpt.elim (some false) (fun fs =>
      if fs.isEmpty then some false
      else if !pyHasKey fs key then some false
      else
        (pyGet fs key).elim (some false) (fun entry =>
          (pyIn "type".toList entry).bind (fun tin =>
            if tin then entryTypeTriple entry else some false)))

/-- The per-item loop of flatten_record (db_sync.py lines 193-203):
descend into dict values while level < max_level, otherwise emit the
flattened key with the value serialized by json.dumps exactly when
_should_json_dump_value says so. -/
def frItems (d : List (LC × PyVal)) (fsOpt : Option (List (LC × PyVal)))
    (parentKey : List LC) (sep : LC) (level maxLevel : Nat) :
    Option (List (LC × PyVal)) :=
  match d with
  | [] => some []
  | (k, v) :: rest =>
    let newKey := flatten_key k parentKey sep
    match v with
    | .dict ve =>
      if _h : level < maxLevel then
        (frItems ve fsOpt (parentKey ++ [k]) sep (level + 1) maxLevel).bind
          (fun subItems =>
            (frItems rest fsOpt parentKey sep level maxLevel).map
              (fun restItems => pyDict subItems ++ restItems))
      else
        (shouldJsonDumpValue k v fsOpt).bind (fun b =>
          (frItems rest fsOpt parentKey sep level maxLevel).map
            (fun restItems =>
              (newKey, if b then .str (jsonDumps v) else v) :: restItems))
    | _ =>
      (shouldJsonDumpValue k v fsOpt).bind (fun b =>
        (frItems rest fsOpt parentKey sep level maxLevel).map
          (fun restItems =>
            (newKey, if b then .str (jsonDumps v) else v) :: restItems))
termination_by (maxLevel - level, d.length)

/-- Model of flatten_record (db_sync.py lines 192-203): the collected
items converted back into a dict. -/
def flatten_record (d : List (LC × PyVal))
    (fsOpt : Option (List (LC × PyVal))) (parentKey : List LC) (sep : LC)
    (level maxLevel : Nat) : Option (List (LC × PyVal)) :=
  (frItems d fsOpt parentKey sep level maxLevel).map pyDict

end FlattenRecord

section UpdateColumns

/-- One DDL statement issued by DbSync.update_columns: an add-column
clause (safe column name plus column type, from column_clause) or the
rename issued by version_column, whose target name is the unquoted
column name with a timestamp suffix appended. -/
inductive DDLAction where
  | addColumn (safeName : LC) (columnType : LC)
  | renameColumn (safeName : LC) (newName : LC)
  deriving DecidableEq

/-- The rename target produced by version_column (db_sync.py lines
918-924): strip double quotes from the column name and append an
underscore and the strftime timestamp, supplied here as ts. -/
def versionedName (safeName : LC) (ts : LC) : LC :=
  pyReplace safeName ['"'] [] ++ "_".toList ++ ts

/-- The columns_to_add comprehension of update_columns (db_sync.py lines
870-877): flattened columns whose upper-cased name is missing from the
live column dict, as (safe name, column type) pairs; none models a
Python error from column_type on a malformed property. -/
def columnsToAdd (fs : List (LC × PyVal)) (cd : List (LC × LC)) :
    Option (List (LC × LC)) :=
  match fs with
  | [] => some []
  | (name, props) :: rest =>
    if pyHasKey cd (pyUpper name) then columnsToAdd rest cd
    else
      (column_type props).bind (fun ct =>
        (columnsToAdd rest cd).map (fun r => (safe_column_name name, ct) :: r))

/-- The columns_to_replace comprehension of update_columns (db_sync.py
lines 882-902): flattened columns present in the live column dict whose
data type differs from the newly inferred type, excluding the
TIMESTAMP_NTZ mapping. -/
def columnsToReplace (fs : List (LC × PyVal)) (cd : List (LC × LC)) :
    Option (List (LC × LC)) :=
  match fs with
  | [] => some []
  | (name, props) :: rest =>
    if pyHasKey cd (pyUpper name) then
      (column_type props).bind (fun ct =>
        if pyUpper ((pyGet cd (pyUpper name)).getD []) ≠ pyUpper ct ∧
            pyUpper ct ≠ "TIMESTAMP_NTZ".toList then
          (columnsToReplace rest cd).map
            (fun r => (safe_column_name name, ct) :: r)
        else columnsToReplace rest cd)
    else columnsToReplace rest cd

/-- The live/cached column rows for the target table, as
(COLUMN_NAME, DATA_TYPE) pairs, turned into the columns_dict of
update_columns (db_sync.py line 868): keyed by upper-cased column name,
later rows winning as in a Python dict comprehension. -/
def columnsDictOf (colRows : List (LC × LC)) : List (LC × LC) :=
  pyDict (colRows.map (fun r => (pyUpper r.1, r.2)))

/-- Model of the DDL sequence issued by DbSync.update_columns (db_sync.py
lines 852-911) against the given live column rows: first an add-column
per missing column, then, per type-changed column, the version_column
rename followed by an add-column with the new type.  The cache refresh
and the SQL execution are outside the model; ts stands for the wall
clock timestamp used by version_column. -/
def update_columns (fs : List (LC × PyVal)) (colRows : List (LC × LC))
    (ts : LC) : Option (List DDLAction) :=
  let cd := columnsDictOf colRows
  (columnsToAdd fs cd).bind (fun adds =>
    (columnsToReplace fs cd).map (fun reps =>
      (adds.map (fun p => DDLAction.addColumn p.1 p.2)) ++
      (reps.flatMap (fun p =>
        [DDLAction.renameColumn p.1 (versionedName p.1 ts),
         DDLAction.addColumn p.1 p.2]))))

end UpdateColumns

section HelperLemmas

theorem pyStrIn_cons_false {old : LC} {c : Char} {rest : LC}
    (h : pyStrIn old (c :: rest) = false) :
    old.isPrefixOf (c :: rest) = false ∧ pyStrIn old rest = false := by
  have e : pyStrIn old (c :: rest) =
      (old.isPrefixOf (c :: rest) || pyStrIn old rest) := rfl
  rw [e] at h
  exact Bool.or_eq_false_iff.mp h

theorem pyReplaceAux_not_contains (old new : LC) (hold : 0 < old.length) :
    ∀ s, pyStrIn old s = false → pyReplaceAux old new hold s = s
  | [] => by
    intro _
    simp [pyReplaceAux]
  | c :: rest => by
    intro h
    obtain ⟨h1, h2⟩ := pyStrIn_cons_false h
    unfold pyReplaceAux
    rw [if_neg (by simp [h1])]
    rw [pyReplaceAux_not_contains old new hold rest h2]

theorem pyReplace_not_contains (s old new : LC) (hold : 0 < old.length)
    (h : pyStrIn old s = false) : pyReplace s old new = s := by
  unfold pyReplace
  rw [dif_neg (by omega)]
  exact pyReplaceAux_not_contains old new (by omega) s h

theorem stagingConflictMsg_ne_missingKeyMsg (k : LC) :
    stagingConflictMsg ≠ missingKeyMsg k := by
  intro h
  have h2 : stagingConflictMsg.head? = (missingKeyMsg k).head? := by rw [h]
  have e1 : stagingConflictMsg.head? = some 'O' := rfl
  have e2 : (missingKeyMsg k).head? = some 'R' := rfl
  rw [e1, e2] at h2
  exact absurd h2 (by decide)

theorem stagingConflictMsg_ne_missingSchemaMsg :
    stagingConflictMsg ≠ missingSchemaMsg := by decide

end HelperLemmas

section ClaimC7

/-- C7 counterexample: the polling wait sequence of load_via_snowpipe is
not linear; the claim that consecutive waits always differ by the same
fixed increment is false, since the first gap is 1 (32 - 31) while the
third gap is 2 (35 - 33). -/
theorem C7_counterexample :
    ¬ ∃ c : Nat, ∀ n : Nat,
      incrementValue false (n + 1) = incrementValue false n + c := by
  rintro ⟨c, h⟩
  have h0 := h 0
  have h2 := h 2
  have e0 : incrementValue false 0 = 31 := rfl
  have e1 : incrementValue false 1 = 32 := rfl
  have e2 : incrementValue false 2 = 33 := rfl
  have e3 : incrementValue false 3 = 35 := rfl
  rw [e0, e1] at h0
  rw [e2, e3] at h2
  omega

/-- C7 (amended): the waits used by the ingestion history-polling loop
are not linearly increasing; the n-th wait is fib(n+2) + 30, so each
wait is the sum of the two previous waits minus 30, and the sequence is
strictly increasing with Fibonacci gaps rather than a fixed increment. -/
theorem C7_poll_backoff_fibonacci (n : Nat) :
    incrementValue false n = Nat.fib (n + 2) + 30 ∧
    incrementValue false (n + 2) + 30 =
      incrementValue false (n + 1) + incrementValue false n ∧
    incrementValue false n < incrementValue false (n + 1) := by
  have key : ∀ m, incrementValue false m = Nat.fib (m + 2) + 30 := by
    intro m
    have h1 : incrementValue false m =
        Nat.fib (m + 1) + Nat.fib m + 30 := by
      simp [incrementValue, incrementState_eq_fib]
    rw [h1, Nat.fib_add_two]
    omega
  refine ⟨key n, ?_, ?_⟩
  · rw [key, key, key]
    have h1 : Nat.fib (n + 2 + 2) = Nat.fib (n + 2) + Nat.fib (n + 2 + 1) :=
      @Nat.fib_add_two (n + 2)
    have h2 : Nat.fib (n + 2 + 1) = Nat.fib (n + 1 + 2) :=
      congrArg Nat.fib (by omega)
    omega
  · rw [key, key]
    have hpos : 0 < Nat.fib (n + 1) := Nat.fib_pos.mpr (by omega)
    have h1 : Nat.fib (n + 1 + 2) = Nat.fib (n + 1) + Nat.fib (n + 1 + 1) :=
      @Nat.fib_add_two (n + 1)
    have h2 : Nat.fib (n + 1 + 1) = Nat.fib (n + 2) :=
      congrArg Nat.fib (by omega)
    omega

end ClaimC7

section ClaimC5

/-- C5: when every ingest_files attempt raises an HTTPError, the
load_via_snowpipe submission loop makes exactly max_retry attempts and
then aborts the run (the fatal branch that exits with a non-zero
status); if an attempt succeeds before exhaustion, the loop stops right
there with no further attempts, regardless of later outcomes. -/
theorem C5_snowpipe_submit_retries (m n k : Nat) (rest : List Bool)
    (hm : 1 ≤ m) (hn : m ≤ n) (hk : k < m) :
    loadViaSnowpipeSubmit (List.replicate n false) m = .fatal m ∧
    loadViaSnowpipeSubmit (List.replicate k false ++ true :: rest) m =
      .success (k + 1) := by
  constructor
  · have := ingestLoop_all_fail m hm n 0 hn
    simpa [loadViaSnowpipeSubmit] using this
  · have := ingestLoop_first_success k m 0 rest hk
    simpa [loadViaSnowpipeSubmit] using this

/-- C5 witness: with max_retry 5, five straight failures end in the
fatal exit after exactly 5 attempts, and a success on the third attempt
stops the loop at 3 attempts. -/
theorem C5_snowpipe_submit_retries_witness :
    loadViaSnowpipeSubmit (List.replicate 5 false) 5 =
      SubmitOutcome.fatal 5 ∧
    loadViaSnowpipeSubmit (List.replicate 2 false ++ true :: [false]) 5 =
      SubmitOutcome.success (2 + 1) :=
  C5_snowpipe_submit_retries 5 5 2 [false] (by decide) (by decide) (by decide)

end ClaimC5

section ClaimC6

/-- Configuration with both staging keys and every required key set. -/
def bothStagingConfig : Config :=
  [("account".toList, "a".toList), ("dbname".toList, "d".toList),
   ("user".toList, "u".toList), ("password".toList, "p".toList),
   ("warehouse".toList, "w".toList), ("s3_bucket".toList, "b".toList),
   ("stage".toList, "s".toList), ("file_format".toList, "f".toList),
   ("default_target_schema".toList, "t".toList)]

/-- Configuration with only the s3_bucket staging key set. -/
def onlyS3Config : Config :=
  [("account".toList, "a".toList), ("dbname".toList, "d".toList),
   ("user".toList, "u".toList), ("password".toList, "p".toList),
   ("warehouse".toList, "w".toList), ("s3_bucket".toList, "b".toList),
   ("file_format".toList, "f".toList),
   ("default_target_schema".toList, "t".toList)]

/-- C6 counterexample: a configuration that sets both 's3_bucket' and
'stage' (with all required keys present) passes validate_config with no
errors at all, so setting both staging keys is not a validation error;
it is the supported external-stage mode. -/
theorem C6_counterexample :
    cfgTruthy bothStagingConfig "s3_bucket".toList = true ∧
    cfgTruthy bothStagingConfig "stage".toList = true ∧
    validate_config bothStagingConfig = [] := by decide

/-- C6 (amended): the staging-mode validation error is reported exactly
when one of 's3_bucket' and 'stage' is set and the other is not; setting
both selects external staging and setting neither selects table staging,
and in those two cases the mutual-exclusivity error is never reported. -/
theorem C6_staging_mode_validation (config : Config) :
    (cfgTruthy config "s3_bucket".toList ≠ cfgTruthy config "stage".toList →
      stagingConflictMsg ∈ validate_config config) ∧
    (cfgTruthy config "s3_bucket".toList = cfgTruthy config "stage".toList →
      stagingConflictMsg ∉ validate_config config) := by
  have hne : ∀ l : List LC, stagingConflictMsg ∉ l.map missingKeyMsg := by
    intro l hmem
    obtain ⟨k, _, hk⟩ := List.mem_map.mp hmem
    exact stagingConflictMsg_ne_missingKeyMsg k hk.symm
  have hns : ∀ b : Bool, stagingConflictMsg ∉
      (if b = true then [missingSchemaMsg] else ([] : List LC)) := by
    intro b hmem
    cases b
    · simp at hmem
    · rw [if_pos rfl, List.mem_singleton] at hmem
      exact stagingConflictMsg_ne_missingSchemaMsg hmem
  constructor
  · intro h
    unfold validate_config
    cases hs : cfgTruthy config "s3_bucket".toList <;>
      cases ht : cfgTruthy config "stage".toList <;> rw [hs, ht] at h
    · exact absurd rfl h
    · simp only [Bool.false_and, Bool.not_false, Bool.not_true, Bool.and_false,
        Bool.false_eq_true, if_false, List.filter_nil, List.map_nil,
        List.nil_append, List.append_nil]
      exact List.mem_append_left _ (List.mem_singleton.mpr rfl)
    · simp only [Bool.and_false, Bool.not_false, Bool.not_true, Bool.false_and,
        Bool.false_eq_true, if_false, List.filter_nil, List.map_nil,
        List.nil_append, List.append_nil]
      exact List.mem_append_left _ (List.mem_singleton.mpr rfl)
    · exact absurd rfl h
  · intro h
    unfold validate_config
    cases hs : cfgTruthy config "s3_bucket".toList <;>
      cases ht : cfgTruthy config "stage".toList <;> rw [hs, ht] at h
    · simp only [Bool.and_false, Bool.and_self, Bool.not_false, Bool.true_and,
        Bool.false_eq_true, if_false, if_true, List.nil_append]
      intro hmem
      rcases List.mem_append.mp hmem with hmem1 | hmem1
      · exact hne _ hmem1
      · exact hns _ hmem1
    · exact absurd h (by simp)
    · exact absurd h (by simp)
    · simp only [Bool.and_self, Bool.not_true, Bool.false_and,
        Bool.false_eq_true, if_true, List.nil_append]
      intro hmem
      rcases List.mem_append.mp hmem with hmem1 | hmem1
      · exact hne _ hmem1
      · exact hns _ hmem1

/-- C6 witness: with only s3_bucket set the mutual-exclusivity error is
reported, and with both staging keys set it is not. -/
theorem C6_staging_mode_validation_witness :
    stagingConflictMsg ∈ validate_config onlyS3Config ∧
    stagingConflictMsg ∉ validate_config bothStagingConfig :=
  ⟨(C6_staging_mode_validation onlyS3Config).1 (by decide),
   (C6_staging_mode_validation bothStagingConfig).2 (by decide)⟩

end ClaimC6

section ClaimC2

set_option maxRecDepth 100000 in
/-- C2 counterexample: flatten_key does not keep every name within 255
characters; a single 300-character key with no lowercase letters cannot
be compressed (stripping lowercase from its camelization leaves all 300
characters), so the returned column name still has 300 characters. -/
theorem C2_counterexample :
    255 < (flatten_key (List.replicate 300 'A') [] "__".toList).length := by
  unfold flatten_key
  unfold reduceKeyLoop
  rw [dif_pos (by decide)]
  unfold reduceKeyLoop
  rw [dif_neg (by decide)]
  decide

/-- C2 (amended): flatten_key leaves a name unchanged whenever the
separator-joined path is already under the 255-character limit (the
compression loop never runs, so compression is a no-op on short names);
the universal 255-character bound of the original claim does not hold
when even fully compressed segments stay long. -/
theorem C2_flatten_key_short_noop (k : LC) (parentKey : List LC) (sep : LC)
    (h : (pyJoin sep (parentKey ++ [k])).length < 255) :
    flatten_key k parentKey sep = pyJoin sep (parentKey ++ [k]) := by
  unfold flatten_key
  unfold reduceKeyLoop
  rw [dif_neg (by omega)]

/-- C2 witness: the two-segment path a__b is far below the limit and is
returned verbatim. -/
theorem C2_flatten_key_short_noop_witness :
    (pyJoin "__".toList (["a".toList] ++ ["b".toList])).length < 255 ∧
    flatten_key "b".toList ["a".toList] "__".toList =
      pyJoin "__".toList (["a".toList] ++ ["b".toList]) :=
  ⟨by decide, C2_flatten_key_short_noop "b".toList ["a".toList] "__".toList
    (by decide)⟩

end ClaimC2

section ClaimC10

/-- C10 counterexample: create_query_tag substitutes sequentially, not
simultaneously; with pattern set to the schema token alone and a schema
value that itself spells the table token, the code returns the table
value t instead of inserting the supplied schema name verbatim, unlike
the simultaneous substitution the claim describes. -/
theorem C10_counterexample :
    create_query_tag (some "{schema}".toList) (some "{table}".toList)
      (some "t".toList) = some "t".toList ∧
    create_query_tag_claim (some "{schema}".toList) (some "{table}".toList)
      (some "t".toList) = some "{table}".toList ∧
    (some "t".toList : Option LC) ≠ some "{table}".toList := by
  refine ⟨?_, ?_, by decide⟩
  · simp +decide [create_query_tag, schemaTokenValue, tableTokenValue,
      pyStrIn, pyReplace, pyReplaceAux]
  · simp +decide [create_query_tag_claim, createQueryTagSimultaneous,
      schemaTokenValue, tableTokenValue]

/-- C10 (amended): create_query_tag returns None exactly on an empty or
missing pattern; otherwise it substitutes sequentially: every schema
token of the pattern is replaced first, then every table token of the
resulting string (so a table token introduced by the schema value is
replaced too), defaults applying when a value is missing or empty. -/
theorem C10_create_query_tag_sequential (p : LC) (schema table : Option LC)
    (hp : p ≠ []) :
    create_query_tag (some p) schema table =
      some (pyReplace (pyReplace p "{schema}".toList (schemaTokenValue schema))
        "{table}".toList (tableTokenValue table)) ∧
    create_query_tag Option.none schema table = Option.none ∧
    create_query_tag (some []) schema table = Option.none := by
  refine ⟨?_, rfl, rfl⟩
  simp only [create_query_tag, if_neg hp]
  by_cases hs : pyStrIn "{schema}".toList p = true
  · rw [if_pos hs]
    by_cases ht : pyStrIn "{table}".toList
        (pyReplace p "{schema}".toList (schemaTokenValue schema)) = true
    · rw [if_pos ht]
    · rw [if_neg ht, pyReplace_not_contains
        (pyReplace p "{schema}".toList (schemaTokenValue schema))
        "{table}".toList (tableTokenValue table) (by decide)
        (by simpa using ht)]
  · rw [if_neg hs]
    have e : pyReplace p "{schema}".toList (schemaTokenValue schema) = p :=
      pyReplace_not_contains p "{schema}".toList (schemaTokenValue schema)
        (by decide) (by simpa using hs)
    rw [e]
    by_cases ht : pyStrIn "{table}".toList p = true
    · rw [if_pos ht]
    · rw [if_neg ht, pyReplace_not_contains p "{table}".toList
        (tableTokenValue table) (by decide) (by simpa using ht)]

/-- C10 witness: on the pattern etl-{schema}.{table} with both values
supplied, the sequential substitution result is exactly what
create_query_tag returns. -/
theorem C10_create_query_tag_sequential_witness :
    create_query_tag (some "etl-{schema}.{table}".toList)
        (some "s1".toList) (some "t1".toList) =
      some (pyReplace (pyReplace "etl-{schema}.{table}".toList
        "{schema}".toList (schemaTokenValue (some "s1".toList)))
        "{table}".toList (tableTokenValue (some "t1".toList))) ∧
    create_query_tag Option.none (some "s1".toList) (some "t1".toList) =
      Option.none ∧
    create_query_tag (some []) (some "s1".toList) (some "t1".toList) =
      Option.none :=
  C10_create_query_tag_sequential "etl-{schema}.{table}".toList
    (some "s1".toList) (some "t1".toList) (by decide)

end ClaimC10

section ClaimC9

/-- C9: stream_name_to_dict resolves a stream identifier by splitting on
the separator: one segment gives only a table name (the stream itself,
with no schema or catalog), two segments give schema then table, and
more than two give an ignored catalog qualifier, a schema, and the
remaining segments joined by underscore as the table; in particular
sales-orders with separator '-' resolves to schema sales, table orders.
The separator must be non-empty, as Python split raises on ''. -/
theorem C9_stream_name_to_dict (streamName sep : LC) (hsep : sep ≠ []) :
    ∃ parts : List LC, pySplit streamName sep = some parts ∧
      ∃ d : StreamDict, stream_name_to_dict streamName sep = some d ∧
        (∀ a, parts = [a] → d = ⟨Option.none, Option.none, streamName⟩) ∧
        (∀ a b, parts = [a, b] → d = ⟨Option.none, some a, b⟩) ∧
        (∀ a b c restParts, parts = a :: b :: c :: restParts →
          d = ⟨some a, some b, pyJoin "_".toList (c :: restParts)⟩) ∧
        stream_name_to_dict "sales-orders".toList "-".toList =
          some ⟨Option.none, some "sales".toList, "orders".toList⟩ := by
  have hlen : ¬ sep.length = 0 := by
    cases sep
    · exact absurd rfl hsep
    · simp
  have hs : pySplit streamName sep =
      some (pySplitAux sep (by omega) streamName) := by
    unfold pySplit
    rw [dif_neg hlen]
  refine ⟨_, hs, ?_⟩
  simp only [stream_name_to_dict, hs]
  refine ⟨_, rfl, ?_, ?_, ?_, ?_⟩
  · intro a hp
    rw [hp]
    simp
  · intro a b hp
    rw [hp]
    simp [StreamDict.mk.injEq]
  · intro a b c restParts hp
    rw [hp]
    rw [if_pos (by simp only [List.length_cons]; omega)]
    simp
  · simp +decide [stream_name_to_dict, pySplit, pySplitAux]

/-- C9 witness: the theorem instantiated at the sales-orders stream with
the dash separator. -/
theorem C9_stream_name_to_dict_witness :
    ∃ parts : List LC,
      pySplit "sales-orders".toList "-".toList = some parts ∧
      ∃ d : StreamDict,
        stream_name_to_dict "sales-orders".toList "-".toList = some d ∧
        (∀ a, parts = [a] →
          d = ⟨Option.none, Option.none, "sales-orders".toList⟩) ∧
        (∀ a b, parts = [a, b] → d = ⟨Option.none, some a, b⟩) ∧
        (∀ a b c restParts, parts = a :: b :: c :: restParts →
          d = ⟨some a, some b, pyJoin "_".toList (c :: restParts)⟩) ∧
        stream_name_to_dict "sales-orders".toList "-".toList =
          some ⟨Option.none, some "sales".toList, "orders".toList⟩ :=
  C9_stream_name_to_dict "sales-orders".toList "-".toList (by decide)

end ClaimC9

section ClaimC4

theorem pyIn_list_str (n : LC) (ts : List LC) :
    pyIn n (.list (ts.map PyVal.str)) = some (decide (n ∈ ts)) := by
  induction ts with
  | nil => simp [pyIn]
  | cons a l ih =>
    simp only [pyIn, List.map_cons, List.any_cons, Option.some.injEq] at ih ⊢
    by_cases han : a = n
    · subst han
      simp
    · simp [han, Ne.symm han, ih]

theorem pyGet_mkPropertyEntries_type (ts : List LC) (fmt : Option LC) :
    pyGet (mkPropertyEntries ts fmt) "type".toList =
      some (PyVal.list (ts.map PyVal.str)) := by cases fmt <;> rfl

theorem pyGet_mkPropertyEntries_format (ts : List LC) (fmt : Option LC) :
    pyGet (mkPropertyEntries ts fmt) "format".toList =
      fmt.map PyVal.str := by cases fmt <;> rfl

theorem optmap_str_eq (fmt : Option LC) (s : LC) :
    (fmt.map PyVal.str = some (PyVal.str s)) = (fmt = some s) := by
  cases fmt <;> simp

set_option maxHeartbeats 2000000 in
theorem column_type_mkProperty (ts : List LC) (fmt : Option LC) :
    column_type (mkProperty ts fmt) = some (columnTypeTable ts fmt) := by
  simp only [column_type, mkProperty, pyGet_mkPropertyEntries_type,
    pyGet_mkPropertyEntries_format, pyIn_list_str,
    Option.bind_eq_bind, Option.some_bind, Option.pure_def, optmap_str_eq,
    Bool.or_true, Bool.and_false, Bool.or_eq_true, Bool.and_eq_true,
    decide_eq_true_eq, eq_self_iff_true, Bool.false_eq_true,
    if_true, if_false, or_true, true_or, and_false, false_and,
    columnTypeTable]
  split_ifs <;> first | rfl | tauto

theorem column_trans_mkProperty (ts : List LC) (fmt : Option LC) :
    column_trans (mkProperty ts fmt) = some (columnTransTable ts fmt) := by
  simp only [column_trans, mkProperty, pyGet_mkPropertyEntries_type,
    pyGet_mkPropertyEntries_format, pyIn_list_str,
    Option.bind_eq_bind, Option.some_bind, Option.pure_def, optmap_str_eq,
    Bool.or_true, Bool.and_false, Bool.or_eq_true, Bool.and_eq_true,
    decide_eq_true_eq, eq_self_iff_true, Bool.false_eq_true,
    if_true, if_false, or_true, true_or, and_false, false_and,
    columnTransTable]
  split_ifs <;> first | rfl | tauto

/-- The property descriptor with object type and binary format that
separates the two transform rules. -/
def c4Entries : List (LC × PyVal) :=
  [("type".toList, PyVal.list [PyVal.str "object".toList]),
   ("format".toList, PyVal.str "binary".toList)]

/-- C4 counterexample: a property whose type is object and whose format
is binary gets the structured-parse transform, not the binary-decode
transform, because the structured rule takes precedence; so column_trans
does not return the binary-decode transform exactly for format binary. -/
theorem C4_counterexample :
    column_trans (.dict c4Entries) = some "parse_json".toList ∧
    pyGet c4Entries "format".toList = some (PyVal.str "binary".toList) ∧
    (some "parse_json".toList : Option LC) ≠ some "to_binary".toList := by
  decide

/-- C4 (amended): over list-typed property descriptors, column_type
implements the claimed first-match decision table exactly, and
column_trans returns the structured-parse transform exactly for
object/array types, the binary-decode transform exactly for format
binary among non-structured types, and no transform otherwise. -/
theorem C4_type_mapping_table (ts : List LC) (fmt : Option LC) :
    column_type (mkProperty ts fmt) = some (columnTypeTable ts fmt) ∧
    column_trans (mkProperty ts fmt) = some (columnTransTable ts fmt) ∧
    (column_trans (mkProperty ts fmt) = some "parse_json".toList ↔
      ("object".toList ∈ ts ∨ "array".toList ∈ ts)) ∧
    (¬("object".toList ∈ ts ∨ "array".toList ∈ ts) →
      (column_trans (mkProperty ts fmt) = some "to_binary".toList ↔
        fmt = some "binary".toList)) := by
  refine ⟨column_type_mkProperty ts fmt, column_trans_mkProperty ts fmt,
    ?_, ?_⟩
  · rw [column_trans_mkProperty]
    unfold columnTransTable
    split_ifs with hS hb
    · exact ⟨fun _ => hS, fun _ => rfl⟩
    · exact ⟨fun h => absurd h (by decide), fun h => absurd h hS⟩
    · exact ⟨fun h => absurd h (by decide), fun h => absurd h hS⟩
  · intro hS
    rw [column_trans_mkProperty]
    unfold columnTransTable
    rw [if_neg hS]
    split_ifs with hb
    · exact ⟨fun _ => hb, fun _ => rfl⟩
    · exact ⟨fun h => absurd h (by decide), fun h => absurd h hb⟩

/-- C4 witness: the theorem instantiated at an integer-typed,
binary-formatted descriptor. -/
theorem C4_type_mapping_table_witness :
    column_type (mkProperty ["integer".toList] (some "binary".toList)) =
      some (columnTypeTable ["integer".toList] (some "binary".toList)) ∧
    column_trans (mkProperty ["integer".toList] (some "binary".toList)) =
      some (columnTransTable ["integer".toList] (some "binary".toList)) ∧
    (column_trans (mkProperty ["integer".toList] (some "binary".toList)) =
        some "parse_json".toList ↔
      ("object".toList ∈ ["integer".toList] ∨
        "array".toList ∈ ["integer".toList])) ∧
    (¬("object".toList ∈ ["integer".toList] ∨
        "array".toList ∈ ["integer".toList]) →
      (column_trans (mkProperty ["integer".toList] (some "binary".toList)) =
          some "to_binary".toList ↔
        (some "binary".toList : Option LC) = some "binary".toList)) :=
  C4_type_mapping_table ["integer".toList] (some "binary".toList)

end ClaimC4

section ClaimC3

theorem pyHasKey_eq_isSome {β : Type} (es : List (LC × β)) (k : LC) :
    pyHasKey es k = (pyGet es k).isSome := by
  unfold pyHasKey pyGet
  induction es with
  | nil => rfl
  | cons a l ih =>
    simp only [List.any_cons, List.find?_cons]
    by_cases hp : a.1 = k
    · simp [hp]
    · simp [hp, ih]

theorem safe_column_name_eq_iff (a b : LC) :
    safe_column_name a = safe_column_name b ↔ pyUpper a = pyUpper b := by
  unfold safe_column_name pyUpper
  constructor
  · intro h
    simp only [List.map_cons, List.map_append] at h
    injection h with h1 h2
    exact (List.append_inj' h2 rfl).1
  · intro h
    simp only [List.map_cons, List.map_append]
    rw [h]

theorem columnsToReplace_complete :
    ∀ (fs : List (LC × PyVal)) (cd : List (LC × LC)) (reps : List (LC × LC))
      (name : LC) (props : PyVal) (ct : LC),
      columnsToReplace fs cd = some reps →
      (name, props) ∈ fs →
      pyHasKey cd (pyUpper name) = true →
      column_type props = some ct →
      pyUpper ((pyGet cd (pyUpper name)).getD []) ≠ pyUpper ct →
      pyUpper ct ≠ "TIMESTAMP_NTZ".toList →
      (safe_column_name name, ct) ∈ reps := by
  intro fs
  induction fs with
  | nil =>
    intro cd reps name props ct h hmem
    simp at hmem
  | cons hd tl ih =>
    intro cd reps name props ct h hmem hkey hct hdt hts
    obtain ⟨n0, p0⟩ := hd
    simp only [columnsToReplace] at h
    by_cases hk0 : pyHasKey cd (pyUpper n0) = true
    · rw [if_pos hk0] at h
      cases hct0 : column_type p0 with
      | none =>
        rw [hct0] at h
        exact absurd h (by simp)
      | some ct0 =>
        rw [hct0, Option.some_bind] at h
        by_cases hcond : pyUpper ((pyGet cd (pyUpper n0)).getD []) ≠
            pyUpper ct0 ∧ pyUpper ct0 ≠ "TIMESTAMP_NTZ".toList
        · rw [if_pos hcond] at h
          cases hrec : columnsToReplace tl cd with
          | none =>
            rw [hrec] at h
            exact absurd h (by simp)
          | some repsTl =>
            rw [hrec] at h
            simp only [Option.map_some', Option.some.injEq] at h
            subst h
            rcases List.mem_cons.mp hmem with heq | hmemTl
            · have hn : name = n0 := congrArg Prod.fst heq
              have hp : props = p0 := congrArg Prod.snd heq
              subst hn
              subst hp
              rw [hct0] at hct
              have hcc : ct0 = ct := by injection hct
              subst hcc
              exact List.mem_cons_self _ _
            · exact List.mem_cons_of_mem _
                (ih cd repsTl name props ct hrec hmemTl hkey hct hdt hts)
        · rw [if_neg hcond] at h
          rcases List.mem_cons.mp hmem with heq | hmemTl
          · have hn : name = n0 := congrArg Prod.fst heq
            have hp : props = p0 := congrArg Prod.snd heq
            subst hn
            subst hp
            rw [hct0] at hct
            have hcc : ct0 = ct := by injection hct
            subst hcc
            exact absurd ⟨hdt, hts⟩ hcond
          · exact ih cd reps name props ct h hmemTl hkey hct hdt hts
    · rw [if_neg hk0] at h
      rcases List.mem_cons.mp hmem with heq | hmemTl
      · have hn : name = n0 := congrArg Prod.fst heq
        subst hn
        exact absurd hkey hk0
      · exact ih cd reps name props ct h hmemTl hkey hct hdt hts

theorem columnsToReplace_sound :
    ∀ (fs : List (LC × PyVal)) (cd : List (LC × LC)) (reps : List (LC × LC))
      (q : LC × LC),
      columnsToReplace fs cd = some reps → q ∈ reps →
      ∃ name props ct, (name, props) ∈ fs ∧
        pyHasKey cd (pyUpper name) = true ∧ column_type props = some ct ∧
        pyUpper ((pyGet cd (pyUpper name)).getD []) ≠ pyUpper ct ∧
        pyUpper ct ≠ "TIMESTAMP_NTZ".toList ∧
        q = (safe_column_name name, ct) := by
  intro fs
  induction fs with
  | nil =>
    intro cd reps q h hq
    simp only [columnsToReplace, Option.some.injEq] at h
    subst h
    simp at hq
  | cons hd tl ih =>
    intro cd reps q h hq
    obtain ⟨n0, p0⟩ := hd
    simp only [columnsToReplace] at h
    by_cases hk0 : pyHasKey cd (pyUpper n0) = true
    · rw [if_pos hk0] at h
      cases hct0 : column_type p0 with
      | none =>
        rw [hct0] at h
        exact absurd h (by simp)
      | some ct0 =>
        rw [hct0, Option.some_bind] at h
        by_cases hcond : pyUpper ((pyGet cd (pyUpper n0)).getD []) ≠
            pyUpper ct0 ∧ pyUpper ct0 ≠ "TIMESTAMP_NTZ".toList
        · rw [if_pos hcond] at h
          cases hrec : columnsToReplace tl cd with
          | none =>
            rw [hrec] at h
            exact absurd h (by simp)
          | some repsTl =>
            rw [hrec] at h
            simp only [Option.map_some', Option.some.injEq] at h
            subst h
            rcases List.mem_cons.mp hq with hq0 | hqTl
            · exact ⟨n0, p0, ct0, List.mem_cons_self _ _, hk0, hct0,
                hcond.1, hcond.2, hq0⟩
            · obtain ⟨n, p, ct, hm, hk, hc, hd1, ht1, hq1⟩ :=
                ih cd repsTl q hrec hqTl
              exact ⟨n, p, ct, List.mem_cons_of_mem _ hm, hk, hc, hd1, ht1, hq1⟩
        · rw [if_neg hcond] at h
          obtain ⟨n, p, ct, hm, hk, hc, hd1, ht1, hq1⟩ := ih cd reps q h hq
          exact ⟨n, p, ct, List.mem_cons_of_mem _ hm, hk, hc, hd1, ht1, hq1⟩
    · rw [if_neg hk0] at h
      obtain ⟨n, p, ct, hm, hk, hc, hd1, ht1, hq1⟩ := ih cd reps q h hq
      exact ⟨n, p, ct, List.mem_cons_of_mem _ hm, hk, hc, hd1, ht1, hq1⟩

theorem columnsToAdd_sound :
    ∀ (fs : List (LC × PyVal)) (cd : List (LC × LC)) (adds : List (LC × LC))
      (q : LC × LC),
      columnsToAdd fs cd = some adds → q ∈ adds →
      ∃ name props ct, (name, props) ∈ fs ∧
        pyHasKey cd (pyUpper name) = false ∧ column_type props = some ct ∧
        q = (safe_column_name name, ct) := by
  intro fs
  induction fs with
  | nil =>
    intro cd adds q h hq
    simp only [columnsToAdd, Option.some.injEq] at h
    subst h
    simp at hq
  | cons hd tl ih =>
    intro cd adds q h hq
    obtain ⟨n0, p0⟩ := hd
    simp only [columnsToAdd] at h
    by_cases hk0 : pyHasKey cd (pyUpper n0) = true
    · rw [if_pos hk0] at h
      obtain ⟨n, p, ct, hm, hk, hc, hq1⟩ := ih cd adds q h hq
      exact ⟨n, p, ct, List.mem_cons_of_mem _ hm, hk, hc, hq1⟩
    · rw [if_neg hk0] at h
      cases hct0 : column_type p0 with
      | none =>
        rw [hct0] at h
        exact absurd h (by simp)
      | some ct0 =>
        rw [hct0, Option.some_bind] at h
        cases hrec : columnsToAdd tl cd with
        | none =>
          rw [hrec] at h
          exact absurd h (by simp)
        | some addsTl =>
          rw [hrec] at h
          simp only [Option.map_some', Option.some.injEq] at h
          subst h
          rcases List.mem_cons.mp hq with hq0 | hqTl
          · exact ⟨n0, p0, ct0, List.mem_cons_self _ _,
              Bool.not_eq_true _ ▸ (Bool.eq_false_iff.mpr hk0), hct0, hq0⟩
          · obtain ⟨n, p, ct, hm, hk, hc, hq1⟩ := ih cd addsTl q hrec hqTl
            exact ⟨n, p, ct, List.mem_cons_of_mem _ hm, hk, hc, hq1⟩

theorem flatMap_pair_adjacent {α β : Type} (f g : α → β) :
    ∀ (l : List α) (x : α), x ∈ l →
      ∃ i, (l.flatMap (fun a => [f a, g a]))[i]? = some (f x) ∧
           (l.flatMap (fun a => [f a, g a]))[i + 1]? = some (g x) := by
  intro l
  induction l with
  | nil =>
    intro x hx
    simp at hx
  | cons a tl ih =>
    intro x hx
    rcases List.mem_cons.mp hx with rfl | hxTl
    · exact ⟨0, by simp, by simp⟩
    · obtain ⟨i, h1, h2⟩ := ih x hxTl
      refine ⟨i + 2, ?_, ?_⟩
      · simpa using h1
      · simpa using h2

/-- C3: in update_columns, every flattened column that is present in the
live/cached column dict with a differing declared data type and a newly
inferred type other than TIMESTAMP_NTZ produces the version_column
rename (appending the timestamp suffix to the unquoted name) immediately
followed by an add-column with the same logical name and the new type;
and when the newly inferred type is TIMESTAMP_NTZ, no DDL action at all
is issued for that column.  The uniqueness hypothesis says no other
flattened column resolves to the same upper-cased physical name. -/
theorem C3_update_columns_versioning
    (fs : List (LC × PyVal)) (colRows : List (LC × LC)) (ts : LC)
    (acts : List DDLAction) (name : LC) (props : PyVal) (dt ct : LC)
    (hacts : update_columns fs colRows ts = some acts)
    (hmem : (name, props) ∈ fs)
    (huniq : ∀ q ∈ fs, pyUpper q.1 = pyUpper name → q = (name, props))
    (hdt : pyGet (columnsDictOf colRows) (pyUpper name) = some dt)
    (hct : column_type props = some ct) :
    (pyUpper dt ≠ pyUpper ct → pyUpper ct ≠ "TIMESTAMP_NTZ".toList →
      ∃ i, acts[i]? = some (DDLAction.renameColumn (safe_column_name name)
            (versionedName (safe_column_name name) ts)) ∧
        acts[i + 1]? = some (DDLAction.addColumn (safe_column_name name) ct)) ∧
    (pyUpper ct = "TIMESTAMP_NTZ".toList →
      ∀ a ∈ acts,
        (∀ nn, a ≠ DDLAction.renameColumn (safe_column_name name) nn) ∧
        (∀ t, a ≠ DDLAction.addColumn (safe_column_name name) t)) := by
  have hkey : pyHasKey (columnsDictOf colRows) (pyUpper name) = true := by
    rw [pyHasKey_eq_isSome, hdt]
    rfl
  have hgetD : (pyGet (columnsDictOf colRows) (pyUpper name)).getD [] = dt := by
    rw [hdt]
    rfl
  simp only [update_columns] at hacts
  cases hadds : columnsToAdd fs (columnsDictOf colRows) with
  | none =>
    rw [hadds] at hacts
    exact absurd hacts (by simp)
  | some adds =>
    rw [hadds, Option.some_bind] at hacts
    cases hreps : columnsToReplace fs (columnsDictOf colRows) with
    | none =>
      rw [hreps] at hacts
      exact absurd hacts (by simp)
    | some reps =>
      rw [hreps] at hacts
      simp only [Option.map_some', Option.some.injEq] at hacts
      subst hacts
      constructor
      · intro hdiff hts
        have hin : (safe_column_name name, ct) ∈ reps :=
          columnsToReplace_complete fs (columnsDictOf colRows) reps name props
            ct hreps hmem hkey hct (by rw [hgetD]; exact hdiff) hts
        obtain ⟨i, h1, h2⟩ := flatMap_pair_adjacent
          (fun p : LC × LC => DDLAction.renameColumn p.1 (versionedName p.1 ts))
          (fun p : LC × LC => DDLAction.addColumn p.1 p.2) reps _ hin
        refine ⟨(adds.map (fun p => DDLAction.addColumn p.1 p.2)).length + i,
          ?_, ?_⟩
        · rw [List.getElem?_append_right (by omega)]
          simpa using h1
        · rw [List.getElem?_append_right (by omega)]
          have harith : (adds.map (fun p => DDLAction.addColumn p.1 p.2)).length
              + i + 1 -
              (adds.map (fun p => DDLAction.addColumn p.1 p.2)).length =
              i + 1 := by omega
          rw [harith]
          exact h2
      · intro hts a ha
        have hsafe : ∀ n2 : LC, safe_column_name n2 = safe_column_name name →
            pyUpper n2 = pyUpper name :=
          fun n2 hh => (safe_column_name_eq_iff n2 name).mp hh
        rcases List.mem_append.mp ha with haAdd | haRep
        · obtain ⟨q, hq, rfl⟩ := List.mem_map.mp haAdd
          obtain ⟨n2, p2, ct2, hm2, hk2, hc2, hq2⟩ :=
            columnsToAdd_sound fs (columnsDictOf colRows) adds q hadds hq
          subst hq2
          constructor
          · intro nn contra
            exact absurd contra (by simp)
          · intro t contra
            injection contra with hcn hct2
            have hup : pyUpper n2 = pyUpper name := hsafe n2 hcn
            have := huniq (n2, p2) hm2 hup
            injection this with hn2 hp2
            subst hn2
            rw [hk2] at hkey
            exact absurd hkey (by simp)
        · obtain ⟨q, hq, haq⟩ := List.mem_flatMap.mp haRep
          obtain ⟨n2, p2, ct2, hm2, hk2, hc2, hd2, ht2, hq2⟩ :=
            columnsToReplace_sound fs (columnsDictOf colRows) reps q hreps hq
          subst hq2
          have hkill : ¬ pyUpper n2 = pyUpper name := by
            intro hup
            have := huniq (n2, p2) hm2 hup
            injection this with hn2 hp2
            subst hn2
            subst hp2
            rw [hc2] at hct
            have : ct2 = ct := by injection hct
            subst this
            exact ht2 hts
          rcases List.mem_cons.mp haq with rfl | hrest
          · constructor
            · intro nn contra
              injection contra with hcn hnn
              exact hkill (hsafe n2 hcn)
            · intro t contra
              exact absurd contra (by simp)
          · rcases List.mem_singleton.mp hrest with rfl
            constructor
            · intro nn contra
              exact absurd contra (by simp)
            · intro t contra
              injection contra with hcn hct2
              exact hkill (hsafe n2 hcn)

def c3Fs : List (LC × PyVal) :=
  [("a".toList, PyVal.dict [("type".toList,
    PyVal.list [PyVal.str "integer".toList])])]

def c3Rows : List (LC × LC) := [("A".toList, "TEXT".toList)]

def c3Acts : List DDLAction :=
  [DDLAction.renameColumn ['"', 'A', '"'] "A_20240101_0000".toList,
   DDLAction.addColumn ['"', 'A', '"'] "number".toList]

/-- C3 witness: one integer column whose live type is TEXT gets the
rename-then-add pair; the TIMESTAMP_NTZ branch is vacuous here. -/
theorem C3_update_columns_versioning_witness :
    (pyUpper "TEXT".toList ≠ pyUpper "number".toList →
      pyUpper "number".toList ≠ "TIMESTAMP_NTZ".toList →
      ∃ i, c3Acts[i]? = some (DDLAction.renameColumn
            (safe_column_name "a".toList)
            (versionedName (safe_column_name "a".toList)
              "20240101_0000".toList)) ∧
        c3Acts[i + 1]? = some (DDLAction.addColumn
          (safe_column_name "a".toList) "number".toList)) ∧
    (pyUpper "number".toList = "TIMESTAMP_NTZ".toList →
      ∀ a ∈ c3Acts,
        (∀ nn, a ≠ DDLAction.renameColumn (safe_column_name "a".toList) nn) ∧
        (∀ t, a ≠ DDLAction.addColumn (safe_column_name "a".toList) t)) :=
  C3_update_columns_versioning c3Fs c3Rows "20240101_0000".toList c3Acts
    "a".toList (PyVal.dict [("type".toList,
      PyVal.list [PyVal.str "integer".toList])]) "TEXT".toList
    "number".toList
    (by
      have h1 : column_type (PyVal.dict [(['t', 'y', 'p', 'e'],
          PyVal.list [PyVal.str ['i', 'n', 't', 'e', 'g', 'e', 'r']])]) =
          some ['n', 'u', 'm', 'b', 'e', 'r'] := by decide
      simp +decide [update_columns, columnsToAdd, columnsToReplace,
        columnsDictOf, pyDict, c3Fs, c3Rows, c3Acts, versionedName, pyReplace,
        pyReplaceAux, h1, safe_column_name, pyUpper, pyGet, pyHasKey])
    (by decide) (by decide)
    (by simp +decide [columnsDictOf, pyDict, c3Rows, pyGet])
    (by decide)

end ClaimC3

section ClaimC8

/-- The claim's schema-side serialization condition: the flattened
schema resolves the key to an entry whose type set is exactly the
null/object/array union. -/
def nullableStructuredType (fsOpt : Option (List (LC × PyVal)))
    (k : LC) : Prop :=
  ∃ fs ee t, fsOpt = some fs ∧ pyGet fs k = some (.dict ee) ∧
    pyGet ee "type".toList = some t ∧ pySetEqTriple t = some true

theorem shouldJsonDumpValue_iff (k : LC) (v : PyVal)
    (fsOpt : Option (List (LC × PyVal))) (b : Bool)
    (h : shouldJsonDumpValue k v fsOpt = some b) :
    b = true ↔ (isNested v = true ∨ nullableStructuredType fsOpt k) := by
  unfold shouldJsonDumpValue at h
  by_cases hn : isNested v = true
  · rw [if_pos hn] at h
    injection h with hb
    subst hb
    simp [hn]
  · rw [if_neg hn] at h
    have hiff : b = true ↔ nullableStructuredType fsOpt k := by
      cases fsOpt with
      | none =>
        simp only [Option.elim_none, Option.some.injEq] at h
        subst h
        simp only [Bool.false_eq_true, false_iff]
        rintro ⟨fs, ee, t, heq, _⟩
        exact absurd heq (by simp)
      | some fs =>
        simp only [Option.elim_some] at h
        by_cases hfe : fs.isEmpty = true
        · rw [if_pos hfe] at h
          injection h with hb
          subst hb
          simp only [Bool.false_eq_true, false_iff]
          rintro ⟨fs2, ee, t, heq, hget, _⟩
          obtain rfl : fs = fs2 := by injection heq
          rw [List.isEmpty_iff.mp hfe] at hget
          simp [pyGet] at hget
        · rw [if_neg hfe] at h
          by_cases hhk : pyHasKey fs k = true
          · rw [if_neg (by simp [hhk])] at h
            cases hget : pyGet fs k with
            | none =>
              rw [pyHasKey_eq_isSome, hget] at hhk
              exact absurd hhk (by simp)
            | some entry =>
              rw [hget] at h
              simp only [Option.elim_some] at h
              cases hin : pyIn "type".toList entry with
              | none =>
                rw [hin] at h
                exact absurd h (by simp)
              | some tin =>
                rw [hin, Option.some_bind] at h
                cases tin with
                | false =>
                  rw [if_neg (by simp)] at h
                  injection h with hb
                  subst hb
                  simp only [Bool.false_eq_true, false_iff]
                  rintro ⟨fs2, ee, t, heq, hget2, hgt, _⟩
                  obtain rfl : fs = fs2 := by injection heq
                  rw [hget] at hget2
                  obtain rfl : entry = PyVal.dict ee := by injection hget2
                  simp only [pyIn, Option.some.injEq] at hin
                  rw [pyHasKey_eq_isSome, hgt] at hin
                  exact absurd hin.symm (by simp)
                | true =>
                  rw [if_pos rfl] at h
                  cases entry with
                  | dict ee =>
                    simp only [entryTypeTriple] at h
                    cases hgt : pyGet ee "type".toList with
                    | none =>
                      rw [hgt] at h
                      injection h with hb
                      subst hb
                      simp only [Bool.false_eq_true, false_iff]
                      rintro ⟨fs2, ee2, t, heq, hget2, hgt2, _⟩
                      obtain rfl : fs = fs2 := by injection heq
                      rw [hget] at hget2
                      obtain rfl : ee = ee2 := by
                        injection hget2 with h3
                        injection h3
                      rw [hgt] at hgt2
                      exact absurd hgt2 (by simp)
                    | some t =>
                      rw [hgt] at h
                      simp only [Option.elim_some] at h
                      constructor
                      · intro hb
                        subst hb
                        exact ⟨fs, ee, t, rfl, hget, hgt, h⟩
                      · rintro ⟨fs2, ee2, t2, heq, hget2, hgt2, htrip⟩
                        obtain rfl : fs = fs2 := by injection heq
                        rw [hget] at hget2
                        obtain rfl : ee = ee2 := by
                          injection hget2 with h3
                          injection h3
                        rw [hgt] at hgt2
                        obtain rfl : t = t2 := by injection hgt2
                        rw [h] at htrip
                        injection htrip
                  | str s => exact absurd h (by simp [entryTypeTriple])
                  | list xs => exact absurd h (by simp [entryTypeTriple])
                  | int n => exact absurd hin (by simp [pyIn])
                  | bool b2 => exact absurd hin (by simp [pyIn])
                  | none => exact absurd hin (by simp [pyIn])
          · rw [if_pos (by simp [Bool.eq_false_iff.mpr hhk])] at h
            injection h with hb
            subst hb
            simp only [Bool.false_eq_true, false_iff]
            rintro ⟨fs2, ee, t, heq, hget, _⟩
            obtain rfl : fs = fs2 := by injection heq
            rw [pyHasKey_eq_isSome, hget] at hhk
            exact absurd rfl hhk
    rw [hiff]
    simp [hn]

theorem mem_pyDict {β : Type} :
    ∀ (l : List (LC × β)) (q : LC × β), q ∈ pyDict l → q ∈ l := by
  intro l
  induction l using pyDict.induct with
  | case1 => intro q hq; simp [pyDict] at hq
  | case2 k v rest ih =>
    intro q hq
    rw [pyDict] at hq
    rcases List.mem_cons.mp hq with hq0 | hqTl
    · cases hf : (((k, v) :: rest).reverse.find? (fun p => p.1 = k)) with
      | none =>
        rw [hf] at hq0
        subst hq0
        exact List.mem_cons_self _ _
      | some p =>
        rw [hf] at hq0
        subst hq0
        have hp1 : p.1 = k := by
          have := List.find?_some hf
          simpa using this
        have hpm : p ∈ ((k, v) :: rest).reverse := List.mem_of_find?_eq_some hf
        rw [List.mem_reverse] at hpm
        have hkp : (k, ((some p).getD (k, v)).2) = p := by
          simp only [Option.getD_some]
          rw [← hp1]
        rw [hkp]
        exact hpm
    · have := ih q hqTl
      exact List.mem_cons_of_mem _ (List.mem_of_mem_filter this)

theorem frItems_values :
    ∀ (d : List (LC × PyVal)) (fsOpt : Option (List (LC × PyVal)))
      (parentKey : List LC) (sep : LC) (level maxLevel : Nat)
      (out : List (LC × PyVal)),
      frItems d fsOpt parentKey sep level maxLevel = some out →
      ∀ p ∈ out, ∃ k v b, shouldJsonDumpValue k v fsOpt = some b ∧
        p.2 = (if b then PyVal.str (jsonDumps v) else v) := by
  intro d fsOpt parentKey sep level maxLevel
  induction d, fsOpt, parentKey, sep, level, maxLevel using frItems.induct with
  | case1 fsOpt parentKey sep level maxLevel =>
    intro out h p hp
    simp only [frItems, Option.some.injEq] at h
    subst h
    simp at hp
  | case2 fsOpt parentKey sep level maxLevel k rest ve hlt ihsub ihrest =>
    intro out h p hp
    rw [frItems, dif_pos hlt] at h
    cases hsub : frItems ve fsOpt (parentKey ++ [k]) sep (level + 1)
        maxLevel with
    | none => rw [hsub] at h; exact absurd h (by simp)
    | some subItems =>
      rw [hsub, Option.some_bind] at h
      cases hrest : frItems rest fsOpt parentKey sep level maxLevel with
      | none => rw [hrest] at h; exact absurd h (by simp)
      | some restItems =>
        rw [hrest] at h
        simp only [Option.map_some', Option.some.injEq] at h
        subst h
        rcases List.mem_append.mp hp with hps | hpr
        · exact ihsub subItems hsub p (mem_pyDict subItems p hps)
        · exact ihrest restItems hrest p hpr
  | case3 fsOpt parentKey sep level maxLevel k rest ve hlt ih =>
    intro out h p hp
    rw [frItems, dif_neg hlt] at h
    cases hb : shouldJsonDumpValue k (PyVal.dict ve) fsOpt with
    | none => rw [hb] at h; exact absurd h (by simp)
    | some b =>
      rw [hb, Option.some_bind] at h
      cases hrest : frItems rest fsOpt parentKey sep level maxLevel with
      | none => rw [hrest] at h; exact absurd h (by simp)
      | some restItems =>
        rw [hrest] at h
        simp only [Option.map_some', Option.some.injEq] at h
        subst h
        rcases List.mem_cons.mp hp with hp0 | hpTl
        · exact ⟨k, PyVal.dict ve, b, hb, by rw [hp0]⟩
        · exact ih restItems hrest p hpTl
  | case4 fsOpt parentKey sep level maxLevel k v rest hnd ih =>
    intro out h p hp
    cases v with
    | dict ve => exact absurd rfl (hnd ve)
    | str s =>
      rw [frItems] at h
      case x_2 => exact hnd
      cases hb : shouldJsonDumpValue k (PyVal.str s) fsOpt with
      | none => rw [hb] at h; exact absurd h (by simp)
      | some b =>
        rw [hb, Option.some_bind] at h
        cases hrest : frItems rest fsOpt parentKey sep level maxLevel with
        | none => rw [hrest] at h; exact absurd h (by simp)
        | some restItems =>
          rw [hrest] at h
          simp only [Option.map_some', Option.some.injEq] at h
          subst h
          rcases List.mem_cons.mp hp with hp0 | hpTl
          · exact ⟨k, PyVal.str s, b, hb, by rw [hp0]⟩
          · exact ih restItems hrest p hpTl
    | int n =>
      rw [frItems] at h
      case x_2 => exact hnd
      cases hb : shouldJsonDumpValue k (PyVal.int n) fsOpt with
      | none => rw [hb] at h; exact absurd h (by simp)
      | some b =>
        rw [hb, Option.some_bind] at h
        cases hrest : frItems rest fsOpt parentKey sep level maxLevel with
        | none => rw [hrest] at h; exact absurd h (by simp)
        | some restItems =>
          rw [hrest] at h
          simp only [Option.map_some', Option.some.injEq] at h
          subst h
          rcases List.mem_cons.mp hp with hp0 | hpTl
          · exact ⟨k, PyVal.int n, b, hb, by rw [hp0]⟩
          · exact ih restItems hrest p hpTl
    | bool b2 =>
      rw [frItems] at h
      case x_2 => exact hnd
      cases hb : shouldJsonDumpValue k (PyVal.bool b2) fsOpt with
      | none => rw [hb] at h; exact absurd h (by simp)
      | some b =>
        rw [hb, Option.some_bind] at h
        cases hrest : frItems rest fsOpt parentKey sep level maxLevel with
        | none => rw [hrest] at h; exact absurd h (by simp)
        | some restItems =>
          rw [hrest] at h
          simp only [Option.map_some', Option.some.injEq] at h
          subst h
          rcases List.mem_cons.mp hp with hp0 | hpTl
          · exact ⟨k, PyVal.bool b2, b, hb, by rw [hp0]⟩
          · exact ih restItems hrest p hpTl
    | none =>
      rw [frItems] at h
      case x_2 => exact hnd
      cases hb : shouldJsonDumpValue k (PyVal.none) fsOpt with
      | none => rw [hb] at h; exact absurd h (by simp)
      | some b =>
        rw [hb, Option.some_bind] at h
        cases hrest : frItems rest fsOpt parentKey sep level maxLevel with
        | none => rw [hrest] at h; exact absurd h (by simp)
        | some restItems =>
          rw [hrest] at h
          simp only [Option.map_some', Option.some.injEq] at h
          subst h
          rcases List.mem_cons.mp hp with hp0 | hpTl
          · exact ⟨k, PyVal.none, b, hb, by rw [hp0]⟩
          · exact ih restItems hrest p hpTl
    | list xs =>
      rw [frItems] at h
      case x_2 => exact hnd
      cases hb : shouldJsonDumpValue k (PyVal.list xs) fsOpt with
      | none => rw [hb] at h; exact absurd h (by simp)
      | some b =>
        rw [hb, Option.some_bind] at h
        cases hrest : frItems rest fsOpt parentKey sep level maxLevel with
        | none => rw [hrest] at h; exact absurd h (by simp)
        | some restItems =>
          rw [hrest] at h
          simp only [Option.map_some', Option.some.injEq] at h
          subst h
          rcases List.mem_cons.mp hp with hp0 | hpTl
          · exact ⟨k, PyVal.list xs, b, hb, by rw [hp0]⟩
          · exact ih restItems hrest p hpTl



/-- C8: every value produced by flatten_record is either the json.dumps
serialization of the source value or the source value unchanged, and it
is serialized exactly when _should_json_dump_value says so, which holds
precisely when the value is natively a dict or list, or the resolved
column's declared type set is exactly the nullable structured union
null/object/array. -/
theorem C8_flatten_record_serialization
    (d : List (LC × PyVal)) (fsOpt : Option (List (LC × PyVal)))
    (parentKey : List LC) (sep : LC) (level maxLevel : Nat)
    (out : List (LC × PyVal))
    (h : flatten_record d fsOpt parentKey sep level maxLevel = some out) :
    ∀ p ∈ out, ∃ k v b, shouldJsonDumpValue k v fsOpt = some b ∧
      (b = true ↔ (isNested v = true ∨ nullableStructuredType fsOpt k)) ∧
      p.2 = (if b then PyVal.str (jsonDumps v) else v) := by
  unfold flatten_record at h
  cases hfr : frItems d fsOpt parentKey sep level maxLevel with
  | none => rw [hfr] at h; exact absurd h (by simp)
  | some items =>
    rw [hfr] at h
    simp only [Option.map_some', Option.some.injEq] at h
    subst h
    intro p hp
    obtain ⟨k, v, b, hsd, hval⟩ := frItems_values d fsOpt parentKey sep level
      maxLevel items hfr p (mem_pyDict items p hp)
    exact ⟨k, v, b, hsd, shouldJsonDumpValue_iff k v fsOpt b hsd, hval⟩

/-- The record used by the C8 witness: a plain string value and an empty
list value. -/
def c8Record : List (LC × PyVal) :=
  [("a".toList, PyVal.str "x".toList), ("b".toList, PyVal.list [])]

/-- The flattened output of the C8 witness record: the scalar is kept,
the list is serialized to its JSON text. -/
def c8Out : List (LC × PyVal) :=
  [("a".toList, PyVal.str "x".toList), ("b".toList, PyVal.str "[]".toList)]

/-- C8 witness: the theorem applied to the concrete record with no
flattened schema supplied. -/
theorem C8_flatten_record_serialization_witness :
    ∃ k v b,
      shouldJsonDumpValue k v (Option.none : Option (List (LC × PyVal))) =
        some b ∧
      (b = true ↔ (isNested v = true ∨
        nullableStructuredType (Option.none : Option (List (LC × PyVal))) k)) ∧
      ("b".toList, PyVal.str "[]".toList).2 =
        (if b then PyVal.str (jsonDumps v) else v) :=
  C8_flatten_record_serialization c8Record Option.none [] "__".toList 0 0
    c8Out
    (by simp +decide [flatten_record, frItems, pyDict, shouldJsonDumpValue,
      isNested, jsonDumps, jsonDumpsList, flatten_key, reduceKeyLoop, pyJoin,
      c8Record, c8Out])
    ("b".toList, PyVal.str "[]".toList)
    (by simp [c8Out])

end ClaimC8


section ClaimC1

theorem findDup_none_iff :
    ∀ (l : List (LC × PyVal)), List.Sorted keyLE l →
      (findDup l = Option.none ↔ (l.map Prod.fst).Nodup)
  | [] => by
    intro _
    simp [findDup]
  | [p] => by
    intro _
    simp [findDup]
  | (a, u) :: (b, w) :: rest => by
    intro hs
    by_cases hab : a = b
    · subst hab
      simp only [findDup, if_pos rfl]
      constructor
      · intro h
        exact absurd h (by simp)
      · intro h
        exfalso
        simp only [List.map_cons, List.nodup_cons, List.mem_cons] at h
        exact h.1 (Or.inl trivial)
    · simp only [findDup, if_neg hab]
      rw [findDup_none_iff ((b, w) :: rest) hs.of_cons]
      constructor
      · intro h
        simp only [List.map_cons, List.nodup_cons] at h ⊢
        refine ⟨?_, h⟩
        intro hmem
        rcases List.mem_cons.mp hmem with h1 | h2
        · exact hab h1
        · obtain ⟨r, hr, hr1⟩ := List.mem_map.mp h2
          have h3 : keyLE (a, u) (b, w) :=
            (List.sorted_cons.mp hs).1 (b, w) (List.mem_cons_self _ _)
          have h4 : keyLE (b, w) r :=
            (List.sorted_cons.mp hs.of_cons).1 r hr
          unfold keyLE at h3 h4
          rw [hr1] at h4
          exact hab (lcLE_antisymm a b h3 h4)
      · intro h
        simp only [List.map_cons, List.nodup_cons] at h ⊢
        exact h.2

theorem findDup_some_dup :
    ∀ (l : List (LC × PyVal)) (k : LC), findDup l = some k →
      2 ≤ (l.map Prod.fst).count k
  | [] => by
    intro k h
    simp [findDup] at h
  | [p] => by
    intro k h
    simp [findDup] at h
  | (a, u) :: (b, w) :: rest => by
    intro k h
    by_cases hab : a = b
    · subst hab
      simp only [findDup, eq_self_iff_true, if_true, Option.some.injEq] at h
      subst h
      rw [List.map_cons, List.map_cons, List.count_cons_self,
        List.count_cons_self]
      omega
    · simp only [findDup, if_neg hab] at h
      have hrec := findDup_some_dup ((b, w) :: rest) k h
      simp only [List.map_cons] at hrec ⊢
      rw [List.count_cons]
      omega

theorem lcCount_perm :
    ∀ {l1 l2 : List LC}, l1.Perm l2 → ∀ k : LC, l1.count k = l2.count k := by
  intro l1 l2 h
  induction h with
  | nil => intro k; rfl
  | cons a h ih =>
    intro k
    simp only [List.count_cons, ih k]
  | swap a b l =>
    intro k
    simp only [List.count_cons]
    omega
  | trans h1 h2 ih1 ih2 =>
    intro k
    rw [ih1 k, ih2 k]

theorem pyDict_eq_self_of_nodup {β : Type} :
    ∀ (l : List (LC × β)), (l.map Prod.fst).Nodup → pyDict l = l := by
  intro l
  induction l using pyDict.induct with
  | case1 =>
    intro _
    simp [pyDict]
  | case2 k v rest ih =>
    intro hnd
    simp only [List.map_cons, List.nodup_cons] at hnd
    have hnin : k ∉ rest.map Prod.fst := hnd.1
    rw [pyDict]
    have hfind : (((k, v) :: rest).reverse.find? (fun p => p.1 = k)) =
        some (k, v) := by
      rw [List.reverse_cons, List.find?_append]
      have h1 : rest.reverse.find? (fun p => p.1 = k) = Option.none := by
        rw [List.find?_eq_none]
        intro x hx
        simp only [decide_eq_true_eq]
        intro hx1
        exact hnin (List.mem_map.mpr ⟨x, List.mem_reverse.mp hx, hx1⟩)
      rw [h1]
      simp
    rw [hfind]
    have hfilter : rest.filter (fun p => ¬(p.1 = k)) = rest := by
      rw [List.filter_eq_self]
      intro p hp
      simp only [decide_eq_true_eq]
      intro hh
      exact hnin (List.mem_map.mpr ⟨p, hp, hh⟩)
    rw [hfilter] at ih
    rw [hfilter, ih hnd.2]
    simp

/-- C1: whenever the item-collection phase of flatten_schema succeeds,
flatten_schema raises the schema-conflict error naming a genuinely
duplicated column name (one occurring at least twice among the collected
items) exactly when two collected properties share a flattened name; with
no collision it returns the sorted mapping without error, never silently
dropping or merging a column. -/
theorem C1_flatten_schema_conflict (d : PyVal) (parentKey : List LC)
    (sep : LC) (level maxLevel : Nat) (items : List (LC × PyVal))
    (hcollect : flattenCollect d parentKey sep level maxLevel = .ok items) :
    (¬ (items.map Prod.fst).Nodup →
      ∃ k, flatten_schema d parentKey sep level maxLevel =
          .error (.dupCol k) ∧ 2 ≤ (items.map Prod.fst).count k) ∧
    ((items.map Prod.fst).Nodup →
      flatten_schema d parentKey sep level maxLevel =
        .ok (List.insertionSort keyLE items)) := by
  have hfs : flatten_schema d parentKey sep level maxLevel =
      sortAndCheckItems items := by
    rw [flatten_schema, hcollect]
    rfl
  have hsorted : List.Sorted keyLE (List.insertionSort keyLE items) :=
    List.sorted_insertionSort keyLE items
  have hperm : (List.insertionSort keyLE items).Perm items :=
    List.perm_insertionSort keyLE items
  have hpermmap : ((List.insertionSort keyLE items).map Prod.fst).Perm
      (items.map Prod.fst) := hperm.map Prod.fst
  constructor
  · intro hdup
    have hdup2 : ¬ ((List.insertionSort keyLE items).map Prod.fst).Nodup :=
      fun hh => hdup (hpermmap.nodup_iff.mp hh)
    cases hfd : findDup (List.insertionSort keyLE items) with
    | none => exact absurd ((findDup_none_iff _ hsorted).mp hfd) hdup2
    | some k =>
      refine ⟨k, ?_, ?_⟩
      · rw [hfs]
        unfold sortAndCheckItems
        rw [hfd]
      · have hcount := findDup_some_dup _ k hfd
        have he := lcCount_perm hpermmap k
        omega
  · intro hnd
    have hnd2 : ((List.insertionSort keyLE items).map Prod.fst).Nodup :=
      hpermmap.nodup_iff.mpr hnd
    rw [hfs]
    unfold sortAndCheckItems
    rw [(findDup_none_iff _ hsorted).mpr hnd2]
    rw [pyDict_eq_self_of_nodup _ hnd2]

/-- The colliding schema of the C1 witness: property a flattens its
nested b into a__b, colliding with the sibling property a__b. -/
def c1Schema : PyVal :=
  .dict [("properties".toList, .dict [
    ("a".toList, .dict [("type".toList, .list [.str "object".toList]),
      ("properties".toList, .dict [("b".toList,
        .dict [("type".toList, .list [.str "integer".toList])])])]),
    ("a__b".toList, .dict [("type".toList, .list [.str "string".toList])])])]

/-- The items collected from c1Schema before sorting and checking. -/
def c1Items : List (LC × PyVal) :=
  [("a__b".toList, .dict [("type".toList, .list [.str "integer".toList])]),
   ("a__b".toList, .dict [("type".toList, .list [.str "string".toList])])]

/-- C1 witness: the colliding schema produces the schema-conflict error
naming the duplicated column a__b. -/
theorem C1_flatten_schema_conflict_witness :
    ∃ k, flatten_schema c1Schema [] "__".toList 0 1 =
        .error (.dupCol k) ∧ 2 ≤ ((c1Items.map Prod.fst).count k) :=
  (C1_flatten_schema_conflict c1Schema [] "__".toList 0 1 c1Items
    (by simp +decide [flattenCollect, fsItems, flatten_schema,
      sortAndCheckItems, findDup, pyDict, flatten_key, reduceKeyLoop, pyJoin,
      pyIn, pyGet, pyHasKey, pyStrIn, pySetKey, pyIndexZero,
      List.insertionSort, List.orderedInsert, keyLE, lcLE, c1Schema,
      c1Items, List.intercalate, Except.bind])).1
    (by decide)

end ClaimC1

end TargetSnowflake
